import Mathlib

/-
Verification of the Grocery-Sense core services against their specification.

The Python services are shallowly embedded:
  * Python `float` values are modelled as exact rationals (`ℚ`); the claims
    settled here are about exact arithmetic relations that are preserved by
    this model.
  * Python `dict`s (CPython ≥ 3.7) are insertion-ordered; they are modelled
    as association lists with in-place update (`dUpd`).
  * `sorted` is a stable sort; it is modelled by a stable insertion sort
    (`sortS lt`), where `lt a b` means "a strictly precedes b".
  * `None`-able values are modelled with `Option`.

Sections:
  1. Python-semantics helpers (dict, stable sort, strip/lower, round).
  2. `services/planning_service.py`   (PlanningService.build_plan_for_active_list).
  3. `services/multibuy_deal_service.py` (MultiBuyDealService.adjust).
  4. `services/unit_normalization_service.py` (UnitNormalizationService).
  5. `services/ingredient_mapping_service.py` (text-normalization pipeline).
-/

namespace GrocerySense

/-! ## Section 1: Python-semantics helpers -/

/-- Python dict lookup `m.get(k)` (first binding wins; keys are unique by
construction because dicts are only built through `dUpd`/`dAppendUp`). -/
def dGet? {β : Type} : List (Int × β) → Int → Option β
  | [], _ => none
  | (k', v) :: m, k => if k' = k then some v else dGet? m k

/-- Python dict assignment `m[k] = v`: update in place (keeping the original
insertion position of the key) if the key exists, else append a new binding. -/
def dUpd {β : Type} : List (Int × β) → Int → β → List (Int × β)
  | [], k, v => [(k, v)]
  | (k', v') :: m, k, v => if k' = k then (k', v) :: m else (k', v') :: dUpd m k v

/-- Python `m.setdefault(k, []).append(x)`: append `x` to the list stored at
`k`, creating the binding if absent.  `m[k].append(x)` is modelled by the same
function at call sites where the key is provably present. -/
def dAppendUp {γ : Type} : List (Int × List γ) → Int → γ → List (Int × List γ)
  | [], k, x => [(k, [x])]
  | (k', l) :: m, k, x =>
    if k' = k then (k', l ++ [x]) :: m else (k', l) :: dAppendUp m k x

/-- Keys of a modelled dict, in insertion order. -/
def dKeys {β : Type} (m : List (Int × β)) : List Int := m.map (·.1)

/-- Total number of items stored across all values of a dict of lists. -/
def dictTotal {γ : Type} (m : List (Int × List γ)) : Nat :=
  (m.map (fun p => p.2.length)).sum

/-- Stable insert for `sortS`: `lt a b` means "a must come strictly before b";
an element is inserted after every earlier element that strictly precedes it,
which reproduces the stability of Python `sorted`. -/
def insS {α : Type} (lt : α → α → Bool) (x : α) : List α → List α
  | [] => [x]
  | y :: ys => if lt y x then y :: insS lt x ys else x :: y :: ys

/-- Stable insertion sort modelling Python `sorted(l, key=...)`. -/
def sortS {α : Type} (lt : α → α → Bool) : List α → List α
  | [] => []
  | x :: xs => insS lt x (sortS lt xs)

/-- ASCII characters matched by the Python regex class `\s` (and removed by
`str.strip()`). -/
def isPySpace (c : Char) : Bool :=
  c = ' ' || c = '\t' || c = '\n' || c = '\r' || c = '\x0b' || c = '\x0c'

/-- Python `str.strip()` on a character list. -/
def pyStripL (s : List Char) : List Char :=
  ((s.dropWhile isPySpace).reverse.dropWhile isPySpace).reverse

/-- Python `str.strip()`. -/
def pyStrip (s : String) : String := String.mk (pyStripL s.data)

/-- Python `str.lower()` (ASCII model: `Char.toLower` maps A–Z to a–z and
fixes everything else). -/
def pyLower (s : String) : String := String.mk (s.data.map Char.toLower)

/-- Round a rational to the nearest integer, ties to even (the rounding used
by the Python builtin `round`). -/
def roundHalfEven (q : ℚ) : Int :=
  let f : Int := ⌊q⌋
  let r : ℚ := q - f
  if r < 1/2 then f
  else if 1/2 < r then f + 1
  else if f % 2 = 0 then f else f + 1

/-- Python `round(x, 2)` in the exact-rational model. -/
def round2 (x : ℚ) : ℚ := (roundHalfEven (x * 100) : ℚ) / 100

/-- `statistics.mean` on a list of rationals. -/
def pyMean (l : List ℚ) : ℚ := l.sum / l.length

/-! ## Section 2: `services/planning_service.py`

The planning service reads the active shopping list, the store catalog and
the price-history repository.  Those collaborators are modelled as a snapshot
environment `PlanEnv`; each repository function becomes a field.  Domain
dataclasses (`domain/models.py`) keep exactly the fields the planning service
reads; unread fields are omitted. -/

/-- `domain.models.Store` (fields read by the planner). -/
structure Store where
  id : Int
  name : String
  is_favorite : Bool
  priority : Int
  deriving Repr, DecidableEq

/-- `domain.models.Item` (fields read by the planner). -/
structure Item where
  id : Int
  canonical_name : String
  deriving Repr, DecidableEq

/-- `domain.models.PricePoint` (the planner only reads `unit_price`, guarding
for `None`). -/
structure PricePoint where
  unit_price : Option ℚ
  deriving Repr, DecidableEq

/-- `domain.models.ShoppingListItem` (fields read by the planner). -/
structure ShoppingListItem where
  id : Int
  display_name : String
  quantity : Option ℚ
  item_id : Option Int
  deriving Repr, DecidableEq

/-- Snapshot of the repositories used by `PlanningService`:
`ShoppingListService.get_active_items(False, None)`, `list_stores()`,
`get_item_by_id`, `get_item_by_name`, and
`get_prices_for_item(item_id, days_back, store_id, limit)`. -/
structure PlanEnv where
  activeItems : List ShoppingListItem
  stores : List Store
  getItemById : Int → Option Item
  getItemByName : String → Option Item
  getPrices : Int → Nat → Option Int → Nat → List PricePoint

namespace PlanningService

/-- Name-lookup half of `PlanningService._resolve_item`:
`name = (shopping_item.display_name or "").strip()`, empty means no item. -/
def resolveByName (env : PlanEnv) (s : ShoppingListItem) : Option Item :=
  let nm := pyStrip s.display_name
  if nm = "" then none else env.getItemByName nm

/-- `PlanningService._resolve_item`: prefer a truthy `item_id` (Python
truthiness: present and nonzero), falling back to name lookup when the id
lookup misses. -/
def _resolve_item (env : PlanEnv) (s : ShoppingListItem) : Option Item :=
  match s.item_id with
  | some v =>
    if v ≠ 0 then
      match env.getItemById v with
      | some it => some it
      | none => resolveByName env s
    else resolveByName env s
  | none => resolveByName env s

/-- `PlanningService._avg_price_for_item_store`. -/
def _avg_price_for_item_store (env : PlanEnv) (item_id : Int)
    (store_id : Option Int) (days_back history_limit : Nat) : Option ℚ :=
  let prices := (env.getPrices item_id days_back store_id history_limit).filterMap
    (·.unit_price)
  if prices = [] then none else some (pyMean prices)

/-- `PlanningService._estimate_unit_price` (the two memoization caches are
pure memoization over the fixed snapshot and are dropped). -/
def _estimate_unit_price (env : PlanEnv) (item_id store_id : Int)
    (days_back history_limit : Nat) : Option ℚ :=
  match _avg_price_for_item_store env item_id (some store_id) days_back history_limit with
  | some v => some v
  | none => _avg_price_for_item_store env item_id none days_back (max history_limit 20)

/-- `PlanningService._find_best_store_for_item`: scan stores in order, keep
the strictly cheapest average (first store wins ties). -/
def _find_best_store_for_item (env : PlanEnv) (s : ShoppingListItem)
    (stores : List Store) (days_back history_limit : Nat) :
    Option Int × Option ℚ :=
  match _resolve_item env s with
  | none => (none, none)
  | some item_row =>
    stores.foldl
      (fun acc store =>
        let prices := (env.getPrices item_row.id days_back (some store.id)
          history_limit).filterMap (·.unit_price)
        if prices = [] then acc
        else
          let avg := pyMean prices
          match acc.2 with
          | none => (some store.id, some avg)
          | some bp => if avg < bp then (some store.id, some avg) else acc)
      (none, none)

/-- Rank used by `_fallback_stores`: favorites sort first. -/
def favRank (s : Store) : Nat := if s.is_favorite then 0 else 1

/-- Strict precedence for `sorted(stores, key=lambda s: (0 if s.is_favorite
else 1, -(s.priority or 0), s.name.lower()))`. -/
def fbLt (s t : Store) : Bool :=
  if favRank s < favRank t then true
  else if favRank t < favRank s then false
  else if t.priority < s.priority then true
  else if s.priority < t.priority then false
  else decide (pyLower s.name < pyLower t.name)

/-- `PlanningService._fallback_stores`. -/
def _fallback_stores (stores : List Store) (max_stores : Nat) : List Int :=
  ((sortS fbLt stores).take max_stores).map (·.id)

/-- Strict precedence for `sorted(favs, key=lambda s: -(s.priority or 0))`:
higher priority first. -/
def prioDesc (a b : Store) : Bool := decide (b.priority < a.priority)

/-- `PlanningService._choose_generic_fallback_store`. -/
def _choose_generic_fallback_store (stores : List Store) (chosen : List Int) :
    Option Int :=
  match stores with
  | [] => none
  | s0 :: _ =>
    let chosen_stores := stores.filter (fun s => decide (s.id ∈ chosen))
    let favs := chosen_stores.filter (·.is_favorite)
    match sortS prioDesc favs with
    | f :: _ => some f.id
    | [] =>
      match chosen_stores with
      | c :: _ => some c.id
      | [] => some s0.id

/-- Strict precedence for `sorted(stores, key=lambda s: (-(s.priority or 0),
s.name.lower()))` in `_choose_baseline_store`. -/
def blLt (a b : Store) : Bool :=
  if b.priority < a.priority then true
  else if a.priority < b.priority then false
  else decide (pyLower a.name < pyLower b.name)

/-- `PlanningService._choose_baseline_store`. -/
def _choose_baseline_store (stores : List Store) : Option Store :=
  match stores with
  | [] => none
  | _ :: _ =>
    let favs := stores.filter (·.is_favorite)
    match sortS prioDesc favs with
    | f :: _ => some f
    | [] =>
      match sortS blLt stores with
      | p :: _ => some p
      | [] => none

/-- The dict comprehension `{s.id: s for s in stores}` followed by `.get`:
for duplicate ids the comprehension keeps the last store. -/
def storeById (stores : List Store) (sid : Int) : Option Store :=
  stores.reverse.find? (fun s => decide (s.id = sid))

/-- Score contribution of one shopping-list item won by `store`:
`1.0 + (0.5 if favorite) + 0.1 * priority`. -/
def scoreBase (store : Store) : ℚ :=
  1 + (if store.is_favorite then (1 : ℚ)/2 else 0) + (store.priority : ℚ) * (1/10)

/-- Step 3 of `build_plan_for_active_list`: the `item_best_store` dict. -/
def itemBestStore (env : PlanEnv) (days_back history_limit : Nat) :
    List (Int × Option Int) :=
  env.activeItems.foldl
    (fun m itm =>
      dUpd m itm.id
        (_find_best_store_for_item env itm env.stores days_back history_limit).1)
    []

/-- Step 4 of `build_plan_for_active_list`: the `store_scores` dict. -/
def storeScores (env : PlanEnv) (ibs : List (Int × Option Int)) :
    List (Int × ℚ) :=
  env.activeItems.foldl
    (fun sc itm =>
      match (dGet? ibs itm.id).getD none with
      | none => sc
      | some cid =>
        match storeById env.stores cid with
        | none => sc
        | some store => dUpd sc cid ((dGet? sc cid).getD 0 + scoreBase store))
    []

/-- Strict precedence for `sorted(store_scores.items(), key=lambda kv: kv[1],
reverse=True)`: higher score first. -/
def scoreDescLt (a b : Int × ℚ) : Bool := decide (b.2 < a.2)

/-- Step 5: the `chosen_store_ids` list. -/
def chosenStoreIds (env : PlanEnv) (ibs : List (Int × Option Int))
    (max_stores : Nat) : List Int :=
  let sc := storeScores env ibs
  if sc = [] then _fallback_stores env.stores max_stores
  else ((sortS scoreDescLt sc).take max_stores).map (·.1)

/-- The dict comprehension `{sid: [] for sid in chosen_store_ids}`. -/
def initPlan (chosen : List Int) : List (Int × List ShoppingListItem) :=
  chosen.foldl (fun m sid => dUpd m sid []) []

/-- One iteration of the step-6 assignment loop.  `plan_by_store[best].append`
is modelled by `dAppendUp` (the key is present because `best ∈
chosen_store_ids`, all of which are keys of the initial dict). -/
def assignStep (chosen : List Int) (fallback : Option Int)
    (ibs : List (Int × Option Int))
    (acc : List (Int × List ShoppingListItem) × List ShoppingListItem)
    (itm : ShoppingListItem) :
    List (Int × List ShoppingListItem) × List ShoppingListItem :=
  match (dGet? ibs itm.id).getD none with
  | some b =>
    if b ∈ chosen then (dAppendUp acc.1 b itm, acc.2)
    else
      match fallback with
      | some f => (dAppendUp acc.1 f itm, acc.2)
      | none => (acc.1, acc.2 ++ [itm])
  | none =>
    match fallback with
    | some f => (dAppendUp acc.1 f itm, acc.2)
    | none => (acc.1, acc.2 ++ [itm])

/-- Step 6: the `(plan_by_store, unassigned)` pair. -/
def planSplit (env : PlanEnv) (ibs : List (Int × Option Int))
    (chosen : List Int) (fallback : Option Int) :
    List (Int × List ShoppingListItem) × List ShoppingListItem :=
  env.activeItems.foldl (assignStep chosen fallback ibs) (initPlan chosen, [])

/-- Per-store slice of `cost_results["per_store"]`. -/
structure PerStoreCost where
  estimated_subtotal : Option ℚ
  estimated_items : Nat
  missing_items : Nat
  deriving Repr, DecidableEq

/-- The `coverage` record of `_compute_costs`. -/
structure Coverage where
  total_items : Nat
  estimated_items : Nat
  missing_items : Nat
  deriving Repr, DecidableEq

/-- Return value of `_compute_costs`. -/
structure CostResults where
  per_store : List (Int × PerStoreCost)
  basket_total_estimate : Option ℚ
  baseline_total_estimate : Option ℚ
  estimated_savings : Option ℚ
  coverage : Coverage
  deriving Repr, DecidableEq

/-- `float(s_item.quantity) if s_item.quantity is not None else 1.0`. -/
def qtyOf (s : ShoppingListItem) : ℚ := s.quantity.getD 1

/-- Inner loop of `_compute_costs` for one store: accumulates
`(subtotal, store_has_any, store_estimated, store_missing)`. -/
def storeCostFold (env : PlanEnv) (store_id : Int)
    (days_back history_limit : Nat) (items : List ShoppingListItem) :
    ℚ × Bool × Nat × Nat :=
  items.foldl
    (fun acc s_item =>
      let (subtotal, has_any, est, miss) := acc
      match _resolve_item env s_item with
      | none => (subtotal, has_any, est, miss + 1)
      | some item_row =>
        match _estimate_unit_price env item_row.id store_id days_back history_limit with
        | none => (subtotal, has_any, est, miss + 1)
        | some up => (subtotal + up * qtyOf s_item, true, est + 1, miss))
    (0, false, 0, 0)

/-- Baseline pass of `_compute_costs`: price every planned item at the
baseline store, skipping unresolvable/unpriced items. -/
def baselineFold (env : PlanEnv) (baseline_id : Int)
    (days_back history_limit : Nat)
    (plan : List (Int × List ShoppingListItem)) : ℚ × Bool :=
  plan.foldl
    (fun acc entry =>
      entry.2.foldl
        (fun acc2 s_item =>
          match _resolve_item env s_item with
          | none => acc2
          | some item_row =>
            match _estimate_unit_price env item_row.id baseline_id days_back
                history_limit with
            | none => acc2
            | some up => (acc2.1 + up * qtyOf s_item, true))
        acc)
    (0, false)

/-- `PlanningService._compute_costs`. -/
def _compute_costs (env : PlanEnv) (plan : List (Int × List ShoppingListItem))
    (unassigned : List ShoppingListItem) (baseline : Option Store)
    (days_back history_limit : Nat) : CostResults :=
  let total_items := dictTotal plan + unassigned.length
  let folded := plan.foldl
    (fun (acc : List (Int × PerStoreCost) × ℚ × Bool × Nat × Nat) entry =>
      let (ps, btot, bany, eitems, mitems) := acc
      let (subtotal, has_any, sest, smiss) :=
        storeCostFold env entry.1 days_back history_limit entry.2
      (dUpd ps entry.1
          ⟨if has_any then some (round2 subtotal) else none, sest, smiss⟩,
        btot + subtotal, bany || has_any, eitems + sest, mitems + smiss))
    ([], 0, false, 0, 0)
  let (per_store, basket_total, basket_has_any, estimated_items, _missing_items) :=
    folded
  let basket_total_estimate :=
    if basket_has_any then some (round2 basket_total) else none
  let baseline_pair :=
    match baseline with
    | none => ((0 : ℚ), false)
    | some bl => baselineFold env bl.id days_back history_limit plan
  let baseline_total_estimate :=
    if baseline_pair.2 then some (round2 baseline_pair.1) else none
  let savings :=
    match baseline_total_estimate, basket_total_estimate with
    | some a, some b => some (round2 (a - b))
    | _, _ => none
  ⟨per_store, basket_total_estimate, baseline_total_estimate, savings,
    ⟨total_items, estimated_items, total_items - estimated_items⟩⟩

/-- One entry of the returned `"stores"` dict. -/
structure StoreAssignment where
  store : Store
  items : List ShoppingListItem
  estimated_subtotal : Option ℚ
  estimated_items : Nat
  missing_items : Nat
  deriving Repr, DecidableEq

/-- The `"costs"` record of the returned plan. -/
structure PlanCosts where
  basket_total_estimate : Option ℚ
  baseline_store : Option Store
  baseline_total_estimate : Option ℚ
  estimated_savings : Option ℚ
  coverage : Coverage
  deriving Repr, DecidableEq

/-- Return value of `build_plan_for_active_list`.  The human-readable
`"summary"` string (`_build_summary`) is debug output and is not modelled. -/
structure StorePlan where
  stores : List (Int × StoreAssignment)
  unassigned : List ShoppingListItem
  costs : PlanCosts
  deriving Repr, DecidableEq

/-- Final conversion loop of `build_plan_for_active_list`: keep plan entries
whose store id resolves in `store_by_id`, attaching per-store costs
(`per_store.get(sid, {})` defaults). -/
def storesStruct (env : PlanEnv) (plan : List (Int × List ShoppingListItem))
    (costs : CostResults) : List (Int × StoreAssignment) :=
  plan.filterMap
    (fun entry =>
      match storeById env.stores entry.1 with
      | none => none
      | some st =>
        let pc := (dGet? costs.per_store entry.1).getD ⟨none, 0, 0⟩
        some (entry.1,
          ⟨st, entry.2, pc.estimated_subtotal, pc.estimated_items,
            pc.missing_items⟩))

/-- `PlanningService.build_plan_for_active_list(max_stores, days_back=...,
history_limit=...)`. -/
def build_plan_for_active_list (env : PlanEnv)
    (max_stores days_back history_limit : Nat) : StorePlan :=
  let items := env.activeItems
  let stores := env.stores
  if items = [] ∨ stores = [] then
    ⟨[], items, ⟨none, none, none, none, ⟨items.length, 0, items.length⟩⟩⟩
  else
    let ibs := itemBestStore env days_back history_limit
    let chosen := chosenStoreIds env ibs max_stores
    let fallback := _choose_generic_fallback_store stores chosen
    let split := planSplit env ibs chosen fallback
    let baseline := _choose_baseline_store stores
    let costs := _compute_costs env split.1 split.2 baseline days_back history_limit
    ⟨storesStruct env split.1 costs, split.2,
      ⟨costs.basket_total_estimate, baseline, costs.baseline_total_estimate,
        costs.estimated_savings, costs.coverage⟩⟩

/-- Number of shopping-list entries assigned across all stores of a plan. -/
def assignedCount (p : StorePlan) : Nat :=
  (p.stores.map (fun e => e.2.items.length)).sum

/-- Concrete one-item / one-store snapshot with no price history and no
canonical-item catalog. -/
def envOne : PlanEnv :=
  ⟨[⟨1, "x", none, none⟩], [⟨1, "A", false, 0⟩],
    fun _ => none, fun _ => none, fun _ _ _ _ => []⟩

/-- Concrete one-item / two-store snapshot with no price history; the second
store is a favorite with higher priority. -/
def envTwo : PlanEnv :=
  ⟨[⟨1, "x", some 2, none⟩], [⟨1, "B", false, 0⟩, ⟨2, "A", true, 1⟩],
    fun _ => none, fun _ => none, fun _ _ _ _ => []⟩

/-- Concrete zero-item / one-store snapshot with no price history. -/
def envNoItems : PlanEnv :=
  ⟨[], [⟨1, "A", false, 0⟩], fun _ => none, fun _ => none, fun _ _ _ _ => []⟩

end PlanningService

/-! ## Section 3: `services/multibuy_deal_service.py`

The four regex patterns of `MultiBuyDealService` are embedded as explicit
scanners with Python `re.search` semantics: try a match at every start
position from the left; at a given position the patterns
(digit runs, `\s*` gaps, literals, an optional `$`, and `\b` boundaries) are
matched greedily, which for these patterns coincides with backtracking
regex semantics (after a maximal digit/space run the next pattern element
can never match one of the skipped characters).  The character classes
`\d`, `\s`, `\w` are modelled at the ASCII level. -/

/-- ASCII `\d`. -/
def isDigitC (c : Char) : Bool := '0' ≤ c && c ≤ '9'

/-- ASCII `\w` (letters, digits, underscore). -/
def isWordCh (c : Char) : Bool := c.isAlphanum || c = '_'

/-- `\b` on the left of a pattern that starts with a word character: the
previous character (if any) must not be a word character. -/
def atLeftBoundary (prev : Option Char) : Bool :=
  match prev with
  | none => true
  | some c => !isWordCh c

/-- `\b` on the right of a pattern that ends with a word character: the next
character (if any) must not be a word character. -/
def rightBoundary (rest : List Char) : Bool :=
  match rest with
  | [] => true
  | c :: _ => !isWordCh c

/-- Match a literal, returning the remaining input. -/
def stripLit : List Char → List Char → Option (List Char)
  | [], s => some s
  | _ :: _, [] => none
  | l :: ls, c :: cs => if c = l then stripLit ls cs else none

/-- `\s*` (greedy). -/
def skipWs (s : List Char) : List Char := s.dropWhile isPySpace

/-- `\d+` (greedy): the digit run and the remaining input. -/
def stripDigits (s : List Char) : Option (List Char × List Char) :=
  let ds := s.takeWhile isDigitC
  if ds = [] then none else some (ds, s.dropWhile isDigitC)

/-- Numeric value of a digit run (`int(...)` on a `\d+` group). -/
def digitsToNat (ds : List Char) : Nat :=
  ds.foldl (fun n c => n * 10 + (c.toNat - 48)) 0

/-- `float(...)` on a `\d+(\.\d+)?` group: exact decimal value. -/
def fracQ (fs : List Char) : ℚ := (digitsToNat fs : ℚ) / ((10 : ℚ) ^ fs.length)

/-- `\d+(?:\.\d+)?` (greedy): decimal value and remaining input. -/
def decimalStrip (s : List Char) : Option (ℚ × List Char) :=
  match stripDigits s with
  | none => none
  | some (ds, r) =>
    match r with
    | '.' :: r2 =>
      match stripDigits r2 with
      | some (fs, r3) => some ((digitsToNat ds : ℚ) + fracQ fs, r3)
      | none => some ((digitsToNat ds : ℚ), r)
    | _ => some ((digitsToNat ds : ℚ), r)

/-- `re.search` driver: try `f` at every start position, tracking the
previous character for `\b` checks. -/
def searchPos {α : Type} (f : Option Char → List Char → Option α) :
    Option Char → List Char → Option α
  | prev, [] => f prev []
  | prev, c :: cs =>
    match f prev (c :: cs) with
    | some r => some r
    | none => searchPos f (some c) cs

/-- `re.search` from the start of the string. -/
def reSearch {α : Type} (f : Option Char → List Char → Option α)
    (s : List Char) : Option α :=
  searchPos f none s

/-- One alternative of the BOGO pattern `buy\s*X\s*get\s*X`. -/
def buyGetAt (x : List Char) (s : List Char) : Option Unit := do
  let r ← stripLit ("buy".data) s
  let r ← stripLit x (skipWs r)
  let r ← stripLit ("get".data) (skipWs r)
  let r ← stripLit x (skipWs r)
  if rightBoundary r then some () else none

/-- Match of `_re_bogo` = `\b(bogo|buy\s*1\s*get\s*1|buy\s*one\s*get\s*one)\b`
at one position (the input is already lowercased, modelling `re.IGNORECASE`). -/
def bogoAt (prev : Option Char) (s : List Char) : Option Unit :=
  if atLeftBoundary prev then
    (do
      let r ← stripLit ("bogo".data) s
      if rightBoundary r then some () else none)
    <|> buyGetAt ("1".data) s
    <|> buyGetAt ("one".data) s
  else none

/-- `MultiBuyDealService._re_bogo.search` (as a Boolean). -/
def reBogoSearch (s : List Char) : Bool := (reSearch bogoAt s).isSome

/-- Match at one position of `\b(\d+)\s*SEP\s*\$?\s*(\d+(?:\.\d+)?)\b` where
`SEP` is `/`, `for` or `@` — the shared shape of `_re_slash`, `_re_for` and
`_re_at`. -/
def sepPairAt (sep : List Char) (prev : Option Char) (s : List Char) :
    Option (Nat × ℚ) :=
  if atLeftBoundary prev then
    match stripDigits s with
    | none => none
    | some (ds, r) => do
      let r ← stripLit sep (skipWs r)
      let r := skipWs r
      let r := match r with
        | '$' :: t => skipWs t
        | _ => r
      let (total, r) ← decimalStrip r
      if rightBoundary r then some (digitsToNat ds, total) else none
  else none

/-- `MultiBuyDealService._close` (fixed 0.02 currency tolerance). -/
def pyClose (a b : ℚ) : Bool := decide (|a - b| ≤ 2/100)

/-- The `_re_for` half of `_parse_bundle_price` (input already lowercased). -/
def parseForPrice (t : List Char) : Option (Nat × ℚ) :=
  match reSearch (sepPairAt ("for".data)) t with
  | some (qty, total) =>
    if 0 < qty ∧ 0 < total then some (qty, total) else none
  | none => none

/-- `MultiBuyDealService._parse_bundle_price`: first the `2/$5` shape, and —
when it is absent or its guard `qty > 0 and total > 0` fails — the
`3 for 10` shape under the same guard. -/
def _parse_bundle_price (text : List Char) : Option (Nat × ℚ) :=
  match reSearch (sepPairAt ("/".data)) (text.map Char.toLower) with
  | some (qty, total) =>
    if 0 < qty ∧ 0 < total then some (qty, total)
    else parseForPrice (text.map Char.toLower)
  | none => parseForPrice (text.map Char.toLower)

/-- `MultiBuyDealService._parse_at_price`. -/
def _parse_at_price (text : List Char) : Option (Nat × ℚ) :=
  match reSearch (sepPairAt ("@".data)) (text.map Char.toLower) with
  | some (qty, each) =>
    if 0 < qty ∧ 0 < each then some (qty, each) else none
  | none => none

/-- Result dataclass `DealAdjusted`. -/
structure DealAdjusted where
  quantity : ℚ
  unit_price : Option ℚ
  line_total : Option ℚ
  deal_note : String
  deriving Repr, DecidableEq

/-- Checked division: `none` exactly where Python `/` would raise
`ZeroDivisionError`. -/
def divC (a b : ℚ) : Option ℚ := if b = 0 then none else some (a / b)

/-- Decimal rendering used inside the f-string deal notes (abstracts the
Python float repr; no claim depends on these characters). -/
def qRepr (q : ℚ) : String := toString q

/-- Inputs of `MultiBuyDealService.adjust` (all keyword arguments). -/
structure AdjustInput where
  description : String
  quantity : Option ℚ
  unit_price : Option ℚ
  line_total : Option ℚ
  discount : Option ℚ
  deriving Repr, DecidableEq

/-- The `base_total` of the BOGO branch of `adjust`: `lineTotal` if present,
else `unitPrice * quantity` (with `q` the already-defaulted quantity). -/
def bogoBaseTotal (inp : AdjustInput) (q : ℚ) : Option ℚ :=
  match inp.line_total with
  | some l => some l
  | none => inp.unit_price.map (fun u => u * q)

namespace MultiBuyDealService

/-- Body of `MultiBuyDealService.adjust` after the local defaulting
`q = float(quantity) if quantity and quantity > 0 else 1.0`,
`disc = float(discount) if discount is not None else 0.0` (lines 48–52 of the
source).  Every Python division is modelled with `divC`, so a `some` result
also certifies that no division by zero occurs. -/
def adjustBody (desc : List Char) (q : ℚ) (up lt0 : Option ℚ) (disc : ℚ) :
    Option DealAdjusted :=
  -- 1) BOGO-like promotions
  if reBogoSearch (desc.map Char.toLower) then
    let base_total : Option ℚ := match lt0 with
      | some l => some l
      | none => up.map (fun u => u * q)
    match base_total with
    | some bt =>
      if 2 ≤ q then
        let net := bt - disc
        if 0 < net then do
          let eff ← divC net q
          return ⟨q, some eff, some net, "bogo_effective_price"⟩
        else some ⟨q, up, lt0, "bogo_detected_no_adjust"⟩
      else some ⟨q, up, lt0, "bogo_detected_no_adjust"⟩
    | none => some ⟨q, up, lt0, "bogo_detected_no_adjust"⟩
  else
    -- 2) bundle price patterns
    match _parse_bundle_price desc with
    | some (bundle_qty, bundle_total) =>
      let noteTag := fun (suffix : String) =>
        "bundle(" ++ toString bundle_qty ++ "/$" ++ qRepr bundle_total ++ ")"
          ++ suffix
      let fromText : Option DealAdjusted := do
        let eff ← divC bundle_total (bundle_qty : ℚ)
        let implied := eff * q - disc
        return ⟨q, some eff, some implied, noteTag ("_from_text")⟩
      match lt0 with
      | some l =>
        if q < (bundle_qty : ℚ) ∧ pyClose l bundle_total then
          let q2 : ℚ := (bundle_qty : ℚ)
          let net := l - disc
          do
            let eff ← if 0 < q2 then (divC net q2).map some else some none
            return ⟨q2, eff, some net, noteTag ("_qty_fix")⟩
        else
          let net := l - disc
          if 0 < q then do
            let eff ← divC net q
            return ⟨q, some eff, some net, noteTag ("_from_total")⟩
          else fromText
      | none => fromText
    | none =>
      -- 3) "2 @ 4.00"
      match _parse_at_price desc with
      | some (at_qty, each_price) =>
        let up2 : ℚ := match up with
          | none => each_price
          | some u => if u ≤ 0 then each_price else u
        let q2 : ℚ :=
          if q < (at_qty : ℚ) then
            match lt0 with
            | none => (at_qty : ℚ)
            | some l =>
              if pyClose l ((at_qty : ℚ) * each_price) then (at_qty : ℚ) else q
          else q
        let lt2 : Option ℚ := match lt0 with
          | some l => some l
          | none => some (up2 * q2 - disc)
        let note := "at(" ++ toString at_qty ++ "@" ++ qRepr each_price ++ ")"
        match lt2 with
        | some l2 =>
          if 0 < q2 then do
            let net := if lt0.isSome then l2 - disc else l2
            let eff ← divC net q2
            return ⟨q2, some eff, some net, note⟩
          else some ⟨q2, some up2, lt2, note ++ "_no_total"⟩
        | none => some ⟨q2, some up2, lt2, note ++ "_no_total"⟩
      | none =>
        -- 4) no deal detected
        let upMissing : Bool := match up with
          | none => true
          | some u => decide (u ≤ 0)
        match lt0 with
        | some l =>
          if upMissing ∧ 0 < q then do
            let net := l - disc
            let eff ← divC net q
            return ⟨q, some eff, some net, "unit_from_total"⟩
          else some ⟨q, up, lt0, "no_deal"⟩
        | none => some ⟨q, up, lt0, "no_deal"⟩

/-- `MultiBuyDealService.adjust`: default the locals as in the source, then
run the branch body. -/
def adjust (inp : AdjustInput) : Option DealAdjusted :=
  adjustBody (pyStripL inp.description.data)
    (match inp.quantity with
     | some v => if 0 < v then v else 1
     | none => 1)
    inp.unit_price inp.line_total (inp.discount.getD 0)

end MultiBuyDealService

/-! ## Section 4: `services/unit_normalization_service.py`

The `items.default_unit` column is the only state this service reads and
writes (the schema-ensure DDL is not data and is not modelled).  The table is
a map from item id to an optional row holding an optional TEXT cell:
`none` = no row with that id, `some none` = row with a NULL `default_unit`.
An `UPDATE ... WHERE id = ?` on an absent row is a no-op. -/

/-- Conversion constant `LB_TO_KG = 0.45359237`. -/
def LB_TO_KG : ℚ := 45359237 / 100000000

/-- Conversion constant `KG_TO_LB = 2.2046226218`. -/
def KG_TO_LB : ℚ := 22046226218 / 10000000000

/-- Result dataclass `NormalizedPrice`. -/
structure NormalizedPrice where
  norm_unit_price : ℚ
  norm_unit : String
  note : String
  deriving Repr, DecidableEq

/-- The `items` table restricted to `(id, default_unit)`. -/
def ItemsTable : Type := Int → Option (Option String)

namespace UnitNormalizationService

/-- `UnitNormalizationService._normalize_unit`. -/
def _normalize_unit (u : String) : String :=
  if u = "" then "unknown"
  else
    let s := pyLower (pyStrip u)
    if s ∈ ["ea", "each", "unit", "units", "ct", "count"] then "each"
    else if s ∈ ["lb", "lbs", "#", "pound", "pounds"] then "lb"
    else if s ∈ ["kg", "kgs", "kilogram", "kilograms"] then "kg"
    else if s ∈ ["g", "gram", "grams"] then "g"
    else "unknown"

/-- `UnitNormalizationService.get_item_default_unit`:
`SELECT default_unit FROM items WHERE id = ?`, then
`if not row: None`, `if not v: None`, `str(v).strip().lower() or None`. -/
def get_item_default_unit (st : ItemsTable) (item_id : Int) : Option String :=
  match st item_id with
  | none => none
  | some none => none
  | some (some s) =>
    if s = "" then none
    else
      let w := pyLower (pyStrip s)
      if w = "" then none else some w

/-- `UnitNormalizationService.set_item_default_unit_if_missing`. -/
def set_item_default_unit_if_missing (st : ItemsTable) (item_id : Int)
    (observed_unit : String) : ItemsTable :=
  let ou := _normalize_unit observed_unit
  if ou ∈ ["each", "lb", "kg", "g"] then
    match get_item_default_unit st item_id with
    | some _ => st
    | none =>
      fun j =>
        if j = item_id then
          match st item_id with
          | none => none
          | some _ => some (some ou)
        else st j
  else st

/-- `\bW\b` or (when `optS`) `\bW(s)?\b` at one position. -/
def wordAltAt (w : List Char) (optS : Bool) (prev : Option Char)
    (s : List Char) : Option Unit :=
  if atLeftBoundary prev then
    match stripLit w s with
    | none => none
    | some r =>
      if rightBoundary r then some ()
      else if optS then
        match r with
        | 's' :: r2 => if rightBoundary r2 then some () else none
        | _ => none
      else none
  else none

/-- `\b#\b` at one position: `#` is not a word character, so both boundaries
require an adjacent word character. -/
def hashAt (prev : Option Char) (s : List Char) : Option Unit :=
  match prev, s with
  | some p, '#' :: rest =>
    if isWordCh p then
      match rest with
      | c :: _ => if isWordCh c then some () else none
      | [] => none
    else none
  | _, _ => none

/-- `(\d+(\.\d+)?)\s*g\b` at one position (no left boundary). -/
def numberGAt (_prev : Option Char) (s : List Char) : Option Unit :=
  match decimalStrip s with
  | none => none
  | some (_, r) =>
    match skipWs r with
    | 'g' :: r2 => if rightBoundary r2 then some () else none
    | _ => none

/-- `UnitNormalizationService.guess_unit_from_text`. -/
def guess_unit_from_text (text : String) : String :=
  let t := text.data.map Char.toLower
  if (reSearch (wordAltAt ("kg".data) false) t).isSome
      || (reSearch (wordAltAt ("kilogram".data) true) t).isSome then "kg"
  else if (reSearch numberGAt t).isSome
      || (reSearch (wordAltAt ("gram".data) true) t).isSome then "g"
  else if (reSearch (wordAltAt ("lb".data) true) t).isSome
      || (reSearch (wordAltAt ("pound".data) true) t).isSome
      || (reSearch hashAt t).isSome then "lb"
  else "unknown"

/-- `UnitNormalizationService._convert`: a per-unit price conversion,
`none` where the source returns `None` (not convertible). -/
def _convert (unit_price : ℚ) (from_unit to_unit : String) : Option ℚ :=
  let f := _normalize_unit from_unit
  let t := _normalize_unit to_unit
  if f = t then some unit_price
  else if f = "lb" ∧ t = "kg" then some (unit_price * KG_TO_LB)
  else if f = "kg" ∧ t = "lb" then some (unit_price * LB_TO_KG)
  else if f = "g" ∧ t = "kg" then some (unit_price * 1000)
  else if f = "kg" ∧ t = "g" then some (unit_price / 1000)
  else none

/-- Observed-unit resolution steps of `normalize`: canonicalize, then infer
from the description text when unknown, then default to `each`. -/
def obsUnit (observed_unit : String) (description : Option String) : String :=
  let obs0 := _normalize_unit observed_unit
  let obs1 :=
    if obs0 = "unknown" then guess_unit_from_text (description.getD "")
    else obs0
  if obs1 = "unknown" then "each" else obs1

/-- `UnitNormalizationService.normalize`: returns the `NormalizedPrice` and
the items table after the `set_item_default_unit_if_missing` side effect. -/
def normalize (st : ItemsTable) (item_id : Int) (unit_price : ℚ)
    (observed_unit : String) (description : Option String) :
    NormalizedPrice × ItemsTable :=
  let obs := obsUnit observed_unit description
  let st1 := set_item_default_unit_if_missing st item_id obs
  let default_unit := (get_item_default_unit st1 item_id).getD obs
  if default_unit = obs then
    (⟨unit_price, default_unit, "no_conversion"⟩, st1)
  else
    match _convert unit_price obs default_unit with
    | none =>
      (⟨unit_price, obs,
        "no_conversion_possible(" ++ obs ++ "->" ++ default_unit ++ ")"⟩, st1)
    | some c =>
      (⟨c, default_unit,
        "converted(" ++ obs ++ "->" ++ default_unit ++ ")"⟩, st1)

/-- The four canonical units. -/
def IsUnit (x : String) : Prop :=
  x = "each" ∨ x = "lb" ∨ x = "kg" ∨ x = "g"

/-- Concrete table: item 1 exists with a whitespace-only `default_unit`. -/
def stBlank : ItemsTable := fun j => if j = 1 then some (some " ") else none

/-- Concrete table: item 1 exists with `default_unit = "lb"`. -/
def stLb : ItemsTable := fun j => if j = 1 then some (some "lb") else none

/-- Concrete table: item 1 exists with a NULL `default_unit`. -/
def stNull : ItemsTable := fun j => if j = 1 then some none else none

end UnitNormalizationService

/-! ## Section 5: `services/ingredient_mapping_service.py`

Only the text-normalization pipeline (`_normalize`, `_expand_abbrev`,
`_remove_stopwords`, `_normalize_pipeline`) is embedded; it is pure.
`_normalize` lowercases, replaces every character outside `[a-z0-9\s]` by a
space, collapses whitespace and strips — equivalently: join the maximal runs
of lowercase-alphanumeric characters with single spaces. -/

/-- Characters kept by `_normalize` after lowercasing (`[a-z0-9]`). -/
def isLowerAlnum (c : Char) : Bool := ('a' ≤ c && c ≤ 'z') || ('0' ≤ c && c ≤ '9')

/-- Maximal runs of characters satisfying `p`; all other characters
separate runs (structural recursion; see `splitRuns_cons_pos` for the
equivalent takeWhile/dropWhile characterization). -/
def splitRuns (p : Char → Bool) : List Char → List (List Char)
  | [] => []
  | c :: cs =>
    let r := splitRuns p cs
    if p c then
      match cs with
      | [] => [[c]]
      | d :: _ =>
        if p d then
          match r with
          | [] => [[c]]
          | t :: ts => (c :: t) :: ts
        else [c] :: r
    else r

/-- Join words with single spaces (`" ".join`). -/
def joinSp : List (List Char) → List Char
  | [] => []
  | [w] => w
  | w :: ws => w ++ ' ' :: joinSp ws

namespace IngredientMappingService

/-- `IngredientMappingService.DEFAULT_ABBREV`. -/
def DEFAULT_ABBREV : List (String × String) :=
  [("chk", "chicken"), ("thg", "thigh"), ("thgh", "thigh"),
   ("brst", "breast"), ("grnd", "ground"), ("bf", "beef"),
   ("pork", "pork"), ("skls", "skinless"), ("bnls", "boneless"),
   ("bp", "boneless"), ("pkg", "pack"), ("vp", "value pack"),
   ("lg", "large"), ("sm", "small"), ("org", "organic")]

/-- `IngredientMappingService.STOPWORDS`. -/
def STOPWORDS : List String :=
  ["fresh", "large", "small", "pack", "value", "bulk",
   "club", "family", "tray", "super", "store"]

/-- `self.abbrev_map.get(tok, tok)` with the default map. -/
def abbrevLookup (w : List Char) : List Char :=
  match DEFAULT_ABBREV.find? (fun p => decide (p.1.data = w)) with
  | some p => p.2.data
  | none => w

/-- `IngredientMappingService._normalize`. -/
def _normalize (s : List Char) : List Char :=
  joinSp (splitRuns isLowerAlnum (s.map Char.toLower))

/-- Python `text.split()` (split on whitespace runs, dropping empties). -/
def pySplit (s : List Char) : List (List Char) :=
  splitRuns (fun c => !isPySpace c) s

/-- `IngredientMappingService._expand_abbrev`. -/
def _expand_abbrev (s : List Char) : List Char :=
  joinSp ((pySplit s).map abbrevLookup)

/-- Stopword test `t not in STOPWORDS` (negated). -/
def isStop (w : List Char) : Bool :=
  STOPWORDS.any (fun t => decide (t.data = w))

/-- `IngredientMappingService._remove_stopwords`. -/
def _remove_stopwords (s : List Char) : List Char :=
  joinSp ((pySplit s).filter (fun w => !isStop w))

/-- `IngredientMappingService._normalize_pipeline`. -/
def _normalize_pipeline (raw : List Char) : List Char :=
  let t1 := _normalize raw
  let t2 := _expand_abbrev t1
  let t3 := _normalize t2
  let t4 := _remove_stopwords t3
  _normalize t4

/-- The pipeline on Python strings. -/
def normalizePipelineS (s : String) : String :=
  String.mk (_normalize_pipeline s.data)

/-- A fixed point word of the pipeline: non-empty, lowercase-alphanumeric,
not an abbreviation key (other than an identity one), not a stopword. -/
def GoodWord (w : List Char) : Prop :=
  w ≠ [] ∧ w.all isLowerAlnum = true ∧ abbrevLookup w = w ∧ isStop w = false

/-- Outputs of the pipeline: a space-join of fixed-point words. -/
def GoodOut (y : List Char) : Prop :=
  ∃ ws, (∀ w ∈ ws, GoodWord w) ∧ y = joinSp ws

end IngredientMappingService

/-! ## Lemmas: dict and stable-sort helpers -/

theorem dAppendUp_cons_pos {γ : Type} {k' k : Int} (h : k' = k) (l : List γ)
    (m : List (Int × List γ)) (x : γ) :
    dAppendUp ((k', l) :: m) k x = (k', l ++ [x]) :: m := by
  simp [dAppendUp, h]

theorem dAppendUp_cons_neg {γ : Type} {k' k : Int} (h : ¬k' = k) (l : List γ)
    (m : List (Int × List γ)) (x : γ) :
    dAppendUp ((k', l) :: m) k x = (k', l) :: dAppendUp m k x := by
  simp [dAppendUp, h]

theorem dUpd_cons_pos {β : Type} {k' k : Int} (h : k' = k) (v' : β)
    (m : List (Int × β)) (v : β) :
    dUpd ((k', v') :: m) k v = (k', v) :: m := by
  simp [dUpd, h]

theorem dUpd_cons_neg {β : Type} {k' k : Int} (h : ¬k' = k) (v' : β)
    (m : List (Int × β)) (v : β) :
    dUpd ((k', v') :: m) k v = (k', v') :: dUpd m k v := by
  simp [dUpd, h]

theorem dKeys_cons {β : Type} (k : Int) (v : β) (m : List (Int × β)) :
    dKeys ((k, v) :: m) = k :: dKeys m := rfl

theorem dictTotal_nil {γ : Type} : dictTotal ([] : List (Int × List γ)) = 0 := rfl

theorem dictTotal_cons {γ : Type} (k : Int) (l : List γ) (m : List (Int × List γ)) :
    dictTotal ((k, l) :: m) = l.length + dictTotal m := by
  simp [dictTotal]

theorem dictTotal_dAppendUp {γ : Type} (m : List (Int × List γ)) (k : Int) (x : γ) :
    dictTotal (dAppendUp m k x) = dictTotal m + 1 := by
  induction m with
  | nil => simp [dAppendUp, dictTotal]
  | cons p m ih =>
    obtain ⟨k', l⟩ := p
    by_cases h : k' = k
    · rw [dAppendUp_cons_pos h, dictTotal_cons, dictTotal_cons, List.length_append]
      simp
      omega
    · rw [dAppendUp_cons_neg h, dictTotal_cons, dictTotal_cons, ih]
      omega

theorem mem_dKeys_dAppendUp {γ : Type} {m : List (Int × List γ)} {k a : Int} {x : γ} :
    a ∈ dKeys (dAppendUp m k x) ↔ a ∈ dKeys m ∨ a = k := by
  induction m with
  | nil => simp [dAppendUp, dKeys]
  | cons p m ih =>
    obtain ⟨k', l⟩ := p
    by_cases h : k' = k
    · rw [dAppendUp_cons_pos h, dKeys_cons, dKeys_cons]
      subst h
      simp only [List.mem_cons]
      tauto
    · rw [dAppendUp_cons_neg h, dKeys_cons, dKeys_cons]
      simp only [List.mem_cons, ih]
      tauto

theorem dKeys_dAppendUp_of_mem {γ : Type} {m : List (Int × List γ)} {k : Int}
    {x : γ} (h : k ∈ dKeys m) : dKeys (dAppendUp m k x) = dKeys m := by
  induction m with
  | nil => simp [dKeys] at h
  | cons p m ih =>
    obtain ⟨k', l⟩ := p
    by_cases hk : k' = k
    · rw [dAppendUp_cons_pos hk, dKeys_cons, dKeys_cons]
    · rw [dKeys_cons, List.mem_cons] at h
      rcases h with h | h
      · exact absurd h.symm hk
      · rw [dAppendUp_cons_neg hk, dKeys_cons, dKeys_cons, ih h]

theorem length_dAppendUp_of_mem {γ : Type} {m : List (Int × List γ)} {k : Int}
    {x : γ} (h : k ∈ dKeys m) : (dAppendUp m k x).length = m.length := by
  induction m with
  | nil => simp [dKeys] at h
  | cons p m ih =>
    obtain ⟨k', l⟩ := p
    by_cases hk : k' = k
    · rw [dAppendUp_cons_pos hk, List.length_cons, List.length_cons]
    · rw [dKeys_cons, List.mem_cons] at h
      rcases h with h | h
      · exact absurd h.symm hk
      · rw [dAppendUp_cons_neg hk, List.length_cons, List.length_cons, ih h]

theorem mem_dKeys_dUpd {β : Type} {m : List (Int × β)} {k a : Int} {v : β} :
    a ∈ dKeys (dUpd m k v) ↔ a ∈ dKeys m ∨ a = k := by
  induction m with
  | nil => simp [dUpd, dKeys]
  | cons p m ih =>
    obtain ⟨k', v'⟩ := p
    by_cases h : k' = k
    · rw [dUpd_cons_pos h, dKeys_cons, dKeys_cons]
      subst h
      simp only [List.mem_cons]
      tauto
    · rw [dUpd_cons_neg h, dKeys_cons, dKeys_cons]
      simp only [List.mem_cons, ih]
      tauto

theorem dKeys_dUpd_not_mem {β : Type} {m : List (Int × β)} {k : Int} {v : β}
    (h : k ∉ dKeys m) : dKeys (dUpd m k v) = dKeys m ++ [k] := by
  induction m with
  | nil => simp [dUpd, dKeys]
  | cons p m ih =>
    obtain ⟨k', v'⟩ := p
    rw [dKeys_cons, List.mem_cons] at h
    push_neg at h
    rw [dUpd_cons_neg (fun hh => h.1 hh.symm), dKeys_cons, dKeys_cons, ih h.2]
    rfl

theorem length_dUpd_le {β : Type} (m : List (Int × β)) (k : Int) (v : β) :
    (dUpd m k v).length ≤ m.length + 1 := by
  induction m with
  | nil => simp [dUpd]
  | cons p m ih =>
    obtain ⟨k', v'⟩ := p
    by_cases h : k' = k
    · rw [dUpd_cons_pos h]
      simp
    · rw [dUpd_cons_neg h, List.length_cons, List.length_cons]
      omega

theorem dGet?_prop {β : Type} {P : β → Prop} {m : List (Int × β)}
    (h : ∀ p ∈ m, P p.2) {k : Int} {v : β} (hg : dGet? m k = some v) : P v := by
  induction m with
  | nil => simp [dGet?] at hg
  | cons p m ih =>
    obtain ⟨k', v'⟩ := p
    by_cases hk : k' = k
    · simp only [dGet?, if_pos hk, Option.some.injEq] at hg
      exact hg ▸ h _ (List.mem_cons_self _ _)
    · simp only [dGet?, if_neg hk] at hg
      exact ih (fun q hq => h q (List.mem_cons_of_mem _ hq)) hg

theorem dUpd_prop {β : Type} {P : β → Prop} {m : List (Int × β)}
    (h : ∀ p ∈ m, P p.2) {k : Int} {v : β} (hv : P v) :
    ∀ p ∈ dUpd m k v, P p.2 := by
  induction m with
  | nil =>
    intro p hp
    simp only [dUpd, List.mem_singleton] at hp
    exact hp ▸ hv
  | cons q m ih =>
    obtain ⟨k', v'⟩ := q
    intro p hp
    by_cases hk : k' = k
    · rw [dUpd_cons_pos hk, List.mem_cons] at hp
      rcases hp with hp | hp
      · exact hp ▸ hv
      · exact h p (List.mem_cons_of_mem _ hp)
    · rw [dUpd_cons_neg hk, List.mem_cons] at hp
      rcases hp with hp | hp
      · exact hp ▸ h _ (List.mem_cons_self _ _)
      · exact ih (fun q hq => h q (List.mem_cons_of_mem _ hq)) p hp

theorem perm_insS {α : Type} (lt : α → α → Bool) (x : α) (l : List α) :
    List.Perm (insS lt x l) (x :: l) := by
  induction l with
  | nil => rfl
  | cons y ys ih =>
    by_cases h : lt y x
    · simp only [insS, if_pos h]
      exact (ih.cons y).trans (List.Perm.swap x y ys)
    · simp [insS, if_neg h]

theorem perm_sortS {α : Type} (lt : α → α → Bool) (l : List α) :
    List.Perm (sortS lt l) l := by
  induction l with
  | nil => rfl
  | cons x xs ih => exact (perm_insS lt x (sortS lt xs)).trans (ih.cons x)

theorem mem_sortS {α : Type} {lt : α → α → Bool} {l : List α} {a : α} :
    a ∈ sortS lt l ↔ a ∈ l :=
  (perm_sortS lt l).mem_iff

theorem length_sortS {α : Type} (lt : α → α → Bool) (l : List α) :
    (sortS lt l).length = l.length :=
  (perm_sortS lt l).length_eq

theorem sortS_eq_nil_iff {α : Type} {lt : α → α → Bool} {l : List α} :
    sortS lt l = [] ↔ l = [] := by
  constructor
  · intro h
    have hl := length_sortS lt l
    rw [h] at hl
    exact List.length_eq_zero.mp hl.symm
  · rintro rfl
    rfl

theorem dictTotal_eq_zero {γ : Type} {m : List (Int × List γ)}
    (h : ∀ p ∈ m, p.2 = []) : dictTotal m = 0 := by
  induction m with
  | nil => rfl
  | cons p m ih =>
    obtain ⟨k, l⟩ := p
    rw [dictTotal_cons, ih (fun q hq => h q (List.mem_cons_of_mem _ hq))]
    have hl : l = [] := h (k, l) (List.mem_cons_self _ _)
    simp [hl]

/-! ## Lemmas: planning service -/

namespace PlanningService

theorem storeById_some_mem {stores : List Store} {sid : Int} {t : Store}
    (h : storeById stores sid = some t) : t ∈ stores ∧ t.id = sid := by
  unfold storeById at h
  refine ⟨List.mem_reverse.mp (List.mem_of_find?_eq_some h), ?_⟩
  have := List.find?_some h
  simpa using this

theorem storeById_isSome {stores : List Store} {sid : Int}
    (h : ∃ s ∈ stores, s.id = sid) :
    ∃ t, storeById stores sid = some t ∧ t ∈ stores ∧ t.id = sid := by
  obtain ⟨s, hs, hid⟩ := h
  have hmem : ∃ x ∈ stores.reverse, (fun u => decide (u.id = sid)) x := by
    exact ⟨s, List.mem_reverse.mpr hs, by simpa using hid⟩
  have hsome : (stores.reverse.find? (fun u => decide (u.id = sid))).isSome :=
    List.find?_isSome.mpr hmem
  obtain ⟨t, ht⟩ := Option.isSome_iff_exists.mp hsome
  exact ⟨t, ht, storeById_some_mem ht⟩

theorem find_best_eq_none {env : PlanEnv}
    (h : ∀ i d s l, env.getPrices i d s l = []) (it : ShoppingListItem)
    (stores : List Store) (days_back history_limit : Nat) :
    _find_best_store_for_item env it stores days_back history_limit =
      (none, none) := by
  unfold _find_best_store_for_item
  cases _resolve_item env it with
  | none => rfl
  | some row =>
    have hstep : ∀ ss : List Store,
        ss.foldl
          (fun acc store =>
            let prices := (env.getPrices row.id days_back (some store.id)
              history_limit).filterMap (·.unit_price)
            if prices = [] then acc
            else
              let avg := pyMean prices
              match acc.2 with
              | none => (some store.id, some avg)
              | some bp => if avg < bp then (some store.id, some avg) else acc)
          ((none : Option Int), (none : Option ℚ)) = (none, none) := by
      intro ss
      induction ss with
      | nil => rfl
      | cons st ss ih =>
        rw [List.foldl_cons]
        simp [h]
    exact hstep stores

theorem foldl_dUpd_prop {β : Type} (P : β → Prop) (f : ShoppingListItem → β)
    (hf : ∀ it, P (f it)) :
    ∀ (items : List ShoppingListItem) (acc : List (Int × β)),
      (∀ p ∈ acc, P p.2) →
      ∀ p ∈ items.foldl (fun m it => dUpd m it.id (f it)) acc, P p.2 := by
  intro items
  induction items with
  | nil => intro acc hacc p hp; exact hacc p hp
  | cons it items ih =>
    intro acc hacc p hp
    rw [List.foldl_cons] at hp
    exact ih (dUpd acc it.id (f it)) (dUpd_prop hacc (hf it)) p hp

theorem itemBestStore_values_none {env : PlanEnv}
    (h : ∀ i d s l, env.getPrices i d s l = []) (days_back history_limit : Nat) :
    ∀ p ∈ itemBestStore env days_back history_limit, p.2 = none := by
  unfold itemBestStore
  exact foldl_dUpd_prop (fun v => v = none) _
    (fun it => by rw [find_best_eq_none h it env.stores days_back history_limit])
    env.activeItems [] (by intro p hp; simp at hp)

theorem storeScores_nil_of_none {env : PlanEnv} {ibs : List (Int × Option Int)}
    (h : ∀ p ∈ ibs, p.2 = none) : storeScores env ibs = [] := by
  unfold storeScores
  have hlook : ∀ k, (dGet? ibs k).getD none = (none : Option Int) := by
    intro k
    cases hg : dGet? ibs k with
    | none => rfl
    | some v =>
      have hv : v = none :=
        @dGet?_prop (Option Int) (fun w => w = none) ibs h k v hg
      simp [hv]
  have hstep : ∀ (items : List ShoppingListItem)
      (acc : List (Int × ℚ)),
      items.foldl
        (fun sc itm =>
          match (dGet? ibs itm.id).getD none with
          | none => sc
          | some cid =>
            match storeById env.stores cid with
            | none => sc
            | some store => dUpd sc cid ((dGet? sc cid).getD 0 + scoreBase store))
        acc = acc := by
    intro items
    induction items with
    | nil => intro acc; rfl
    | cons it items ih =>
      intro acc
      rw [List.foldl_cons, hlook it.id]
      exact ih acc
  exact hstep env.activeItems []

theorem storeScores_keys_valid {env : PlanEnv} {ibs : List (Int × Option Int)} :
    ∀ sid ∈ dKeys (storeScores env ibs), ∃ s ∈ env.stores, s.id = sid := by
  unfold storeScores
  have hstep : ∀ (items : List ShoppingListItem) (acc : List (Int × ℚ)),
      (∀ k ∈ dKeys acc, ∃ s ∈ env.stores, s.id = k) →
      ∀ sid ∈ dKeys (items.foldl
        (fun sc itm =>
          match (dGet? ibs itm.id).getD none with
          | none => sc
          | some cid =>
            match storeById env.stores cid with
            | none => sc
            | some store => dUpd sc cid ((dGet? sc cid).getD 0 + scoreBase store))
        acc), ∃ s ∈ env.stores, s.id = sid := by
    intro items
    induction items with
    | nil => intro acc hacc sid hsid; exact hacc sid hsid
    | cons it items ih =>
      intro acc hacc sid hsid
      rw [List.foldl_cons] at hsid
      refine ih _ ?_ sid hsid
      cases hlook : (dGet? ibs it.id).getD none with
      | none => simpa [hlook] using hacc
      | some cid =>
        cases hby : storeById env.stores cid with
        | none => simpa [hlook, hby] using hacc
        | some store =>
          simp only [hlook, hby]
          intro k hk
          rcases mem_dKeys_dUpd.mp hk with hk | hk
          · exact hacc k hk
          · subst hk
            obtain ⟨hmem, hid⟩ := storeById_some_mem hby
            exact ⟨store, hmem, hid⟩
  exact hstep env.activeItems [] (by intro k hk; simp [dKeys] at hk)

theorem chosenStoreIds_valid {env : PlanEnv} {ibs : List (Int × Option Int)}
    {max_stores : Nat} :
    ∀ sid ∈ chosenStoreIds env ibs max_stores, ∃ s ∈ env.stores, s.id = sid := by
  intro sid hsid
  unfold chosenStoreIds at hsid
  by_cases hsc : storeScores env ibs = []
  · rw [if_pos hsc] at hsid
    unfold _fallback_stores at hsid
    obtain ⟨s, hs, hid⟩ := List.mem_map.mp hsid
    exact ⟨s, mem_sortS.mp (List.mem_of_mem_take hs), hid⟩
  · rw [if_neg hsc] at hsid
    obtain ⟨p, hp, hid⟩ := List.mem_map.mp hsid
    have hpmem : p ∈ storeScores env ibs := mem_sortS.mp (List.mem_of_mem_take hp)
    have : p.1 ∈ dKeys (storeScores env ibs) := List.mem_map.mpr ⟨p, hpmem, rfl⟩
    exact hid ▸ storeScores_keys_valid p.1 this

theorem chosenStoreIds_length_le (env : PlanEnv) (ibs : List (Int × Option Int))
    (max_stores : Nat) : (chosenStoreIds env ibs max_stores).length ≤ max_stores := by
  unfold chosenStoreIds
  by_cases hsc : storeScores env ibs = []
  · rw [if_pos hsc]
    unfold _fallback_stores
    rw [List.length_map]
    exact List.length_take_le _ _
  · rw [if_neg hsc]
    rw [List.length_map]
    exact List.length_take_le _ _

theorem chosenStoreIds_ne_nil {env : PlanEnv} (ibs : List (Int × Option Int))
    {max_stores : Nat} (hs : env.stores ≠ []) (hm : 1 ≤ max_stores) :
    chosenStoreIds env ibs max_stores ≠ [] := by
  unfold chosenStoreIds
  by_cases hsc : storeScores env ibs = []
  · rw [if_pos hsc]
    unfold _fallback_stores
    apply List.ne_nil_of_length_pos
    rw [List.length_map, List.length_take, length_sortS]
    have : 0 < env.stores.length := List.length_pos.mpr hs
    omega
  · rw [if_neg hsc]
    apply List.ne_nil_of_length_pos
    rw [List.length_map, List.length_take, length_sortS]
    have : 0 < (storeScores env ibs).length := List.length_pos.mpr hsc
    omega

theorem genericFallback_eq_cons (s0 : Store) (rest : List Store)
    (chosen : List Int) :
    _choose_generic_fallback_store (s0 :: rest) chosen =
      (match sortS prioDesc
          (((s0 :: rest).filter (fun s => decide (s.id ∈ chosen))).filter
            (·.is_favorite)) with
       | f :: _ => some f.id
       | [] =>
         match (s0 :: rest).filter (fun s => decide (s.id ∈ chosen)) with
         | c :: _ => some c.id
         | [] => some s0.id) := rfl

theorem genericFallback_isSome {stores : List Store} (hs : stores ≠ [])
    (chosen : List Int) : (_choose_generic_fallback_store stores chosen).isSome := by
  cases stores with
  | nil => exact absurd rfl hs
  | cons s0 rest =>
    rw [genericFallback_eq_cons]
    cases sortS prioDesc
        (((s0 :: rest).filter (fun s => decide (s.id ∈ chosen))).filter
          (·.is_favorite)) with
    | cons f fs => rfl
    | nil =>
      cases (s0 :: rest).filter (fun s => decide (s.id ∈ chosen)) with
      | cons c cs => rfl
      | nil => rfl

theorem genericFallback_valid {stores : List Store} {chosen : List Int} {f : Int}
    (h : _choose_generic_fallback_store stores chosen = some f) :
    ∃ s ∈ stores, s.id = f := by
  cases stores with
  | nil => simp [_choose_generic_fallback_store] at h
  | cons s0 rest =>
    rw [genericFallback_eq_cons] at h
    cases hfav : sortS prioDesc
        (((s0 :: rest).filter (fun s => decide (s.id ∈ chosen))).filter
          (·.is_favorite)) with
    | cons g gs =>
      rw [hfav] at h
      have hg : g ∈ (s0 :: rest) := by
        have h1 : g ∈ sortS prioDesc
            (((s0 :: rest).filter (fun s => decide (s.id ∈ chosen))).filter
              (·.is_favorite)) := by
          rw [hfav]; exact List.mem_cons_self _ _
        have h2 := mem_sortS.mp h1
        exact (List.mem_filter.mp (List.mem_filter.mp h2).1).1
      exact ⟨g, hg, by simpa using h⟩
    | nil =>
      rw [hfav] at h
      cases hcs : (s0 :: rest).filter (fun s => decide (s.id ∈ chosen)) with
      | cons c cs =>
        rw [hcs] at h
        have hc : c ∈ (s0 :: rest) := by
          have : c ∈ (s0 :: rest).filter (fun s => decide (s.id ∈ chosen)) := by
            rw [hcs]; exact List.mem_cons_self _ _
          exact (List.mem_filter.mp this).1
        exact ⟨c, hc, by simpa using h⟩
      | nil =>
        rw [hcs] at h
        exact ⟨s0, List.mem_cons_self _ _, by simpa using h⟩

theorem genericFallback_mem_chosen {stores : List Store} {chosen : List Int}
    {f : Int} (hex : ∃ s ∈ stores, s.id ∈ chosen)
    (h : _choose_generic_fallback_store stores chosen = some f) : f ∈ chosen := by
  cases stores with
  | nil => simp [_choose_generic_fallback_store] at h
  | cons s0 rest =>
    have hcs_ne : (s0 :: rest).filter (fun s => decide (s.id ∈ chosen)) ≠ [] := by
      obtain ⟨s, hs, hid⟩ := hex
      intro hnil
      have : s ∈ (s0 :: rest).filter (fun s => decide (s.id ∈ chosen)) :=
        List.mem_filter.mpr ⟨hs, by simpa using hid⟩
      rw [hnil] at this
      simp at this
    rw [genericFallback_eq_cons] at h
    cases hfav : sortS prioDesc
        (((s0 :: rest).filter (fun s => decide (s.id ∈ chosen))).filter
          (·.is_favorite)) with
    | cons g gs =>
      rw [hfav] at h
      have h1 : g ∈ sortS prioDesc
          (((s0 :: rest).filter (fun s => decide (s.id ∈ chosen))).filter
            (·.is_favorite)) := by
        rw [hfav]; exact List.mem_cons_self _ _
      have h2 := List.mem_filter.mp (mem_sortS.mp h1)
      have h3 := List.mem_filter.mp h2.1
      have : g.id ∈ chosen := by simpa using h3.2
      simp only [Option.some.injEq] at h
      exact h ▸ this
    | nil =>
      rw [hfav] at h
      cases hcs : (s0 :: rest).filter (fun s => decide (s.id ∈ chosen)) with
      | cons c cs =>
        rw [hcs] at h
        have hc : c ∈ (s0 :: rest).filter (fun s => decide (s.id ∈ chosen)) := by
          rw [hcs]; exact List.mem_cons_self _ _
        have : c.id ∈ chosen := by simpa using (List.mem_filter.mp hc).2
        simp only [Option.some.injEq] at h
        exact h ▸ this
      | nil => exact absurd hcs hcs_ne

theorem initPlan_values_nil (chosen : List Int) :
    ∀ p ∈ initPlan chosen, p.2 = ([] : List ShoppingListItem) := by
  unfold initPlan
  have hstep : ∀ (l : List Int) (acc : List (Int × List ShoppingListItem)),
      (∀ p ∈ acc, p.2 = []) →
      ∀ p ∈ l.foldl (fun m sid => dUpd m sid []) acc, p.2 = [] := by
    intro l
    induction l with
    | nil => intro acc hacc p hp; exact hacc p hp
    | cons c l ih =>
      intro acc hacc p hp
      rw [List.foldl_cons] at hp
      exact ih _
        (@dUpd_prop (List ShoppingListItem) (fun l => l = []) acc hacc c [] rfl)
        p hp
  exact hstep chosen [] (by intro p hp; simp at hp)

theorem initPlan_total (chosen : List Int) : dictTotal (initPlan chosen) = 0 :=
  dictTotal_eq_zero (initPlan_values_nil chosen)

theorem mem_initPlan_keys {chosen : List Int} {k : Int} (h : k ∈ chosen) :
    k ∈ dKeys (initPlan chosen) := by
  unfold initPlan
  have hstep : ∀ (l : List Int) (acc : List (Int × List ShoppingListItem)),
      k ∈ l ∨ k ∈ dKeys acc →
      k ∈ dKeys (l.foldl (fun m sid => dUpd m sid []) acc) := by
    intro l
    induction l with
    | nil =>
      intro acc hacc
      rcases hacc with h1 | h1
      · simp at h1
      · exact h1
    | cons c l ih =>
      intro acc hacc
      rw [List.foldl_cons]
      rcases hacc with h1 | h1
      · rcases List.mem_cons.mp h1 with h2 | h2
        · exact ih _ (Or.inr (mem_dKeys_dUpd.mpr (Or.inr h2)))
        · exact ih _ (Or.inl h2)
      · exact ih _ (Or.inr (mem_dKeys_dUpd.mpr (Or.inl h1)))
  exact hstep chosen [] (Or.inl h)

theorem initPlan_keys_sub {chosen : List Int} {k : Int}
    (h : k ∈ dKeys (initPlan chosen)) : k ∈ chosen := by
  unfold initPlan at h
  have hstep : ∀ (l : List Int) (acc : List (Int × List ShoppingListItem)),
      k ∈ dKeys (l.foldl (fun m sid => dUpd m sid []) acc) →
      k ∈ dKeys acc ∨ k ∈ l := by
    intro l
    induction l with
    | nil => intro acc hacc; exact Or.inl hacc
    | cons c l ih =>
      intro acc hacc
      rw [List.foldl_cons] at hacc
      rcases ih _ hacc with h1 | h1
      · rcases mem_dKeys_dUpd.mp h1 with h2 | h2
        · exact Or.inl h2
        · exact Or.inr (h2 ▸ List.mem_cons_self _ _)
      · exact Or.inr (List.mem_cons_of_mem _ h1)
  rcases hstep chosen [] h with h1 | h1
  · simp [dKeys] at h1
  · exact h1

theorem initPlan_length_le (chosen : List Int) :
    (initPlan chosen).length ≤ chosen.length := by
  unfold initPlan
  have hstep : ∀ (l : List Int) (acc : List (Int × List ShoppingListItem)),
      (l.foldl (fun m sid => dUpd m sid []) acc).length ≤ acc.length + l.length := by
    intro l
    induction l with
    | nil => intro acc; simp
    | cons c l ih =>
      intro acc
      rw [List.foldl_cons]
      calc (l.foldl (fun m sid => dUpd m sid []) (dUpd acc c [])).length
          ≤ (dUpd acc c []).length + l.length := ih _
        _ ≤ (acc.length + 1) + l.length :=
            Nat.add_le_add_right (length_dUpd_le acc c []) _
        _ = acc.length + (c :: l).length := by simp [List.length_cons]; omega
  have := hstep chosen []
  simpa using this

theorem initPlan_keys_eq {chosen : List Int} (h : chosen.Nodup) :
    dKeys (initPlan chosen) = chosen := by
  unfold initPlan
  have hstep : ∀ (l : List Int) (acc : List (Int × List ShoppingListItem)),
      (∀ k ∈ l, k ∉ dKeys acc) → l.Nodup →
      dKeys (l.foldl (fun m sid => dUpd m sid []) acc) = dKeys acc ++ l := by
    intro l
    induction l with
    | nil => intro acc _ _; simp
    | cons c l ih =>
      intro acc hacc hnd
      rw [List.foldl_cons]
      have hc : c ∉ dKeys acc := hacc c (List.mem_cons_self _ _)
      have hkeys : dKeys (dUpd acc c []) = dKeys acc ++ [c] :=
        dKeys_dUpd_not_mem hc
      have hrest : ∀ k ∈ l, k ∉ dKeys (dUpd acc c []) := by
        intro k hk
        rw [hkeys]
        intro hmem
        rcases List.mem_append.mp hmem with h1 | h1
        · exact hacc k (List.mem_cons_of_mem _ hk) h1
        · have : k = c := by simpa using h1
          exact (List.nodup_cons.mp hnd).1 (this ▸ hk)
      rw [ih _ hrest (List.nodup_cons.mp hnd).2, hkeys, List.append_assoc]
      rfl
  have := hstep chosen [] (by intro k _; simp [dKeys]) h
  simpa using this

theorem assign_total (chosen : List Int) (fallback : Option Int)
    (ibs : List (Int × Option Int)) :
    ∀ (items : List ShoppingListItem)
      (acc : List (Int × List ShoppingListItem) × List ShoppingListItem),
      dictTotal (items.foldl (assignStep chosen fallback ibs) acc).1 +
        (items.foldl (assignStep chosen fallback ibs) acc).2.length =
      dictTotal acc.1 + acc.2.length + items.length := by
  intro items
  induction items with
  | nil => intro acc; simp
  | cons it items ih =>
    intro acc
    rw [List.foldl_cons]
    have hstep : dictTotal (assignStep chosen fallback ibs acc it).1 +
        (assignStep chosen fallback ibs acc it).2.length =
        dictTotal acc.1 + acc.2.length + 1 := by
      unfold assignStep
      cases (dGet? ibs it.id).getD none with
      | some b =>
        by_cases hb : b ∈ chosen
        · simp [hb, dictTotal_dAppendUp]
          omega
        · cases fallback with
          | some f => simp [hb, dictTotal_dAppendUp]; omega
          | none => simp [hb]; omega
      | none =>
        cases fallback with
        | some f => simp [dictTotal_dAppendUp]; omega
        | none => simp; omega
    rw [ih (assignStep chosen fallback ibs acc it), hstep]
    simp [List.length_cons]
    omega

theorem assign_unassigned (chosen : List Int) {fallback : Option Int} {f : Int}
    (hf : fallback = some f) (ibs : List (Int × Option Int)) :
    ∀ (items : List ShoppingListItem)
      (acc : List (Int × List ShoppingListItem) × List ShoppingListItem),
      (items.foldl (assignStep chosen fallback ibs) acc).2 = acc.2 := by
  subst hf
  intro items
  induction items with
  | nil => intro acc; rfl
  | cons it items ih =>
    intro acc
    rw [List.foldl_cons, ih]
    unfold assignStep
    cases (dGet? ibs it.id).getD none with
    | some b =>
      by_cases hb : b ∈ chosen
      · simp [hb]
      · simp [hb]
    | none => simp

theorem assign_keys_sub (chosen : List Int) (fallback : Option Int)
    (ibs : List (Int × Option Int)) :
    ∀ (items : List ShoppingListItem)
      (acc : List (Int × List ShoppingListItem) × List ShoppingListItem)
      (k : Int), k ∈ dKeys (items.foldl (assignStep chosen fallback ibs) acc).1 →
      k ∈ dKeys acc.1 ∨ k ∈ chosen ∨ fallback = some k := by
  intro items
  induction items with
  | nil => intro acc k hk; exact Or.inl hk
  | cons it items ih =>
    intro acc k hk
    rw [List.foldl_cons] at hk
    rcases ih _ k hk with h1 | h1
    · unfold assignStep at h1
      revert h1
      cases (dGet? ibs it.id).getD none with
      | some b =>
        by_cases hb : b ∈ chosen
        · simp only [if_pos hb]
          intro h1
          rcases mem_dKeys_dAppendUp.mp h1 with h2 | h2
          · exact Or.inl h2
          · exact Or.inr (Or.inl (h2 ▸ hb))
        · cases fallback with
          | some g =>
            simp only [if_neg hb]
            intro h1
            rcases mem_dKeys_dAppendUp.mp h1 with h2 | h2
            · exact Or.inl h2
            · exact Or.inr (Or.inr (by rw [h2]))
          | none =>
            simp only [if_neg hb]
            intro h1
            exact Or.inl h1
      | none =>
        cases fallback with
        | some g =>
          intro h1
          rcases mem_dKeys_dAppendUp.mp h1 with h2 | h2
          · exact Or.inl h2
          · exact Or.inr (Or.inr (by rw [h2]))
        | none =>
          intro h1
          exact Or.inl h1
    · exact Or.inr h1

theorem assign_keys_eq (chosen : List Int) {fallback : Option Int} {f : Int}
    (hf : fallback = some f) (hfc : f ∈ chosen) (ibs : List (Int × Option Int)) :
    ∀ (items : List ShoppingListItem)
      (acc : List (Int × List ShoppingListItem) × List ShoppingListItem),
      (∀ c ∈ chosen, c ∈ dKeys acc.1) →
      dKeys (items.foldl (assignStep chosen fallback ibs) acc).1 = dKeys acc.1 ∧
      (items.foldl (assignStep chosen fallback ibs) acc).1.length = acc.1.length := by
  subst hf
  intro items
  induction items with
  | nil => intro acc hacc; exact ⟨rfl, rfl⟩
  | cons it items ih =>
    intro acc hacc
    rw [List.foldl_cons]
    have hstep : dKeys (assignStep chosen (some f) ibs acc it).1 = dKeys acc.1 ∧
        (assignStep chosen (some f) ibs acc it).1.length = acc.1.length := by
      unfold assignStep
      cases (dGet? ibs it.id).getD none with
      | some b =>
        by_cases hb : b ∈ chosen
        · simp only [if_pos hb]
          exact ⟨dKeys_dAppendUp_of_mem (hacc b hb),
            length_dAppendUp_of_mem (hacc b hb)⟩
        · simp only [if_neg hb]
          exact ⟨dKeys_dAppendUp_of_mem (hacc f hfc),
            length_dAppendUp_of_mem (hacc f hfc)⟩
      | none =>
        exact ⟨dKeys_dAppendUp_of_mem (hacc f hfc),
          length_dAppendUp_of_mem (hacc f hfc)⟩
    have hacc2 : ∀ c ∈ chosen, c ∈ dKeys (assignStep chosen (some f) ibs acc it).1 := by
      intro c hc
      rw [hstep.1]
      exact hacc c hc
    obtain ⟨h1, h2⟩ := ih (assignStep chosen (some f) ibs acc it) hacc2
    exact ⟨h1.trans hstep.1, h2.trans hstep.2⟩

theorem storesStruct_sum {env : PlanEnv} {plan : List (Int × List ShoppingListItem)}
    (costs : CostResults)
    (h : ∀ k ∈ dKeys plan, ∃ s ∈ env.stores, s.id = k) :
    ((storesStruct env plan costs).map (fun e => e.2.items.length)).sum =
      dictTotal plan := by
  induction plan with
  | nil => rfl
  | cons entry plan ih =>
    obtain ⟨k, its⟩ := entry
    obtain ⟨t, ht, _, _⟩ := storeById_isSome (h k (List.mem_cons_self _ _))
    unfold storesStruct
    rw [List.filterMap_cons]
    simp only [ht]
    have ihh := ih (fun k2 hk2 => h k2 (List.mem_cons_of_mem _ hk2))
    unfold storesStruct at ihh
    simp only [List.map_cons, List.sum_cons, ihh, dictTotal_cons]

theorem storesStruct_fst {env : PlanEnv} {plan : List (Int × List ShoppingListItem)}
    (costs : CostResults)
    (h : ∀ k ∈ dKeys plan, ∃ s ∈ env.stores, s.id = k) :
    (storesStruct env plan costs).map (·.1) = dKeys plan := by
  induction plan with
  | nil => rfl
  | cons entry plan ih =>
    obtain ⟨k, its⟩ := entry
    obtain ⟨t, ht, _, _⟩ := storeById_isSome (h k (List.mem_cons_self _ _))
    unfold storesStruct
    rw [List.filterMap_cons]
    simp only [ht]
    have ihh := ih (fun k2 hk2 => h k2 (List.mem_cons_of_mem _ hk2))
    unfold storesStruct at ihh
    simp only [List.map_cons, ihh]
    rfl

theorem storesStruct_length_le (env : PlanEnv)
    (plan : List (Int × List ShoppingListItem)) (costs : CostResults) :
    (storesStruct env plan costs).length ≤ plan.length :=
  List.length_filterMap_le _ _

theorem planSplit_partition (env : PlanEnv) (ibs : List (Int × Option Int))
    (chosen : List Int) (fallback : Option Int) (costs : CostResults)
    (hch : ∀ sid ∈ chosen, ∃ s ∈ env.stores, s.id = sid)
    (hfb : ∀ f, fallback = some f → ∃ s ∈ env.stores, s.id = f) :
    ((storesStruct env (planSplit env ibs chosen fallback).1 costs).map
        (fun e => e.2.items.length)).sum +
      (planSplit env ibs chosen fallback).2.length = env.activeItems.length := by
  have hvalid : ∀ k ∈ dKeys (planSplit env ibs chosen fallback).1,
      ∃ s ∈ env.stores, s.id = k := by
    intro k hk
    unfold planSplit at hk
    rcases assign_keys_sub chosen fallback ibs env.activeItems
        (initPlan chosen, []) k hk with h | h | h
    · exact hch k (initPlan_keys_sub h)
    · exact hch k h
    · exact hfb k h
  rw [storesStruct_sum costs hvalid]
  unfold planSplit
  have htot := assign_total chosen fallback ibs env.activeItems (initPlan chosen, [])
  rw [initPlan_total] at htot
  simpa using htot

end PlanningService

/-! ## Claim theorems: Store Planner -/

open PlanningService

/-- C1: for every call to `build_plan_for_active_list`, every active
shopping-list entry appears exactly once in the result — the sum over all
stores of the length of that store assignment list, plus the length of the
unassigned list, equals the number of active entries. -/
theorem C1_plan_partition (env : PlanEnv)
    (max_stores days_back history_limit : Nat) :
    assignedCount (build_plan_for_active_list env max_stores days_back history_limit) +
      (build_plan_for_active_list env max_stores days_back history_limit).unassigned.length =
      env.activeItems.length := by
  by_cases hcase : env.activeItems = [] ∨ env.stores = []
  · unfold build_plan_for_active_list
    rw [if_pos hcase]
    simp [assignedCount]
  · unfold build_plan_for_active_list assignedCount
    rw [if_neg hcase]
    exact planSplit_partition env (itemBestStore env days_back history_limit)
      (chosenStoreIds env (itemBestStore env days_back history_limit) max_stores)
      (_choose_generic_fallback_store env.stores
        (chosenStoreIds env (itemBestStore env days_back history_limit) max_stores))
      _
      (fun sid h => chosenStoreIds_valid sid h)
      (fun f h => genericFallback_valid h)

/-- C9: whenever at least one active entry and at least one store exist,
`build_plan_for_active_list` returns an empty unassigned list (for every
`max_stores`), and the generic fallback store is never `None` when stores
exist. -/
theorem C9_unassigned_empty (env : PlanEnv)
    (max_stores days_back history_limit : Nat)
    (hi : env.activeItems ≠ []) (hs : env.stores ≠ []) :
    (build_plan_for_active_list env max_stores days_back history_limit).unassigned = [] ∧
    ∀ chosen, (_choose_generic_fallback_store env.stores chosen).isSome := by
  refine ⟨?_, fun chosen => genericFallback_isSome hs chosen⟩
  unfold build_plan_for_active_list
  rw [if_neg (not_or.mpr ⟨hi, hs⟩)]
  show (planSplit env (itemBestStore env days_back history_limit)
    (chosenStoreIds env (itemBestStore env days_back history_limit) max_stores)
    (_choose_generic_fallback_store env.stores
      (chosenStoreIds env (itemBestStore env days_back history_limit) max_stores))).2 = []
  obtain ⟨f, hf⟩ := Option.isSome_iff_exists.mp
    (genericFallback_isSome hs
      (chosenStoreIds env (itemBestStore env days_back history_limit) max_stores))
  unfold planSplit
  rw [assign_unassigned _ hf _ env.activeItems (initPlan _, [])]

/-- C9 witness: a concrete one-item, one-store snapshot. -/
theorem C9_unassigned_empty_witness :
    (build_plan_for_active_list envOne 3 180 12).unassigned = [] ∧
    ∀ chosen, (_choose_generic_fallback_store envOne.stores chosen).isSome :=
  C9_unassigned_empty envOne 3 180 12 (by simp [envOne]) (by simp [envOne])

/-- C7 counterexample: with `max_stores = 0`, one store and one active entry,
the fallback `setdefault` still adds a store to the returned assignments, so
the number of stores in the plan (1) exceeds `max_stores` (0). -/
theorem C7_counterexample :
    ¬ ((build_plan_for_active_list envOne 0 180 12).stores.length ≤ 0) := by
  have h : (build_plan_for_active_list envOne 0 180 12).stores.length = 1 := by rfl
  omega

/-- C7 (amended): for every call with `max_stores ≥ 1`, the number of stores
appearing in the returned store assignments is at most `max_stores`. -/
theorem C7_store_bound (env : PlanEnv)
    (max_stores days_back history_limit : Nat) (hm : 1 ≤ max_stores) :
    (build_plan_for_active_list env max_stores days_back history_limit).stores.length ≤
      max_stores := by
  by_cases hcase : env.activeItems = [] ∨ env.stores = []
  · unfold build_plan_for_active_list
    rw [if_pos hcase]
    simp
  · have hs : env.stores ≠ [] := fun h => hcase (Or.inr h)
    unfold build_plan_for_active_list
    rw [if_neg hcase]
    show (storesStruct env (planSplit env (itemBestStore env days_back history_limit)
      (chosenStoreIds env (itemBestStore env days_back history_limit) max_stores)
      (_choose_generic_fallback_store env.stores
        (chosenStoreIds env (itemBestStore env days_back history_limit) max_stores))).1
      _).length ≤ max_stores
    have hne := chosenStoreIds_ne_nil
      (itemBestStore env days_back history_limit) hs hm
    obtain ⟨c, hc⟩ := List.exists_mem_of_ne_nil _ hne
    obtain ⟨s, hsmem, hsid⟩ := chosenStoreIds_valid c hc
    have hex : ∃ t ∈ env.stores, t.id ∈
        chosenStoreIds env (itemBestStore env days_back history_limit) max_stores :=
      ⟨s, hsmem, hsid ▸ hc⟩
    obtain ⟨f, hf⟩ := Option.isSome_iff_exists.mp
      (genericFallback_isSome hs
        (chosenStoreIds env (itemBestStore env days_back history_limit) max_stores))
    have hfc := genericFallback_mem_chosen hex hf
    have hkeq := assign_keys_eq _ hf hfc (itemBestStore env days_back history_limit)
      env.activeItems
      (initPlan (chosenStoreIds env (itemBestStore env days_back history_limit)
        max_stores), [])
      (fun c2 hc2 => mem_initPlan_keys hc2)
    calc (storesStruct env _ _).length
        ≤ (planSplit env (itemBestStore env days_back history_limit)
            (chosenStoreIds env (itemBestStore env days_back history_limit) max_stores)
            (_choose_generic_fallback_store env.stores
              (chosenStoreIds env (itemBestStore env days_back history_limit)
                max_stores))).1.length := storesStruct_length_le _ _ _
      _ = (initPlan (chosenStoreIds env (itemBestStore env days_back history_limit)
            max_stores)).length := hkeq.2
      _ ≤ (chosenStoreIds env (itemBestStore env days_back history_limit)
            max_stores).length := initPlan_length_le _
      _ ≤ max_stores := chosenStoreIds_length_le env _ max_stores

/-- C7 witness: the amended bound at a concrete input. -/
theorem C7_store_bound_witness :
    1 ≤ 3 ∧
    (build_plan_for_active_list envOne 3 180 12).stores.length ≤ 3 :=
  ⟨by decide, C7_store_bound envOne 3 180 12 (by decide)⟩

/-- C8 counterexample: a snapshot with one configured store, zero price
history everywhere but an empty active list returns an empty store list, so
the claim needs the additional hypothesis of at least one active entry. -/
theorem C8_counterexample :
    envNoItems.stores ≠ [] ∧
    (∀ i d s l, envNoItems.getPrices i d s l = []) ∧
    (build_plan_for_active_list envNoItems 3 180 12).stores = [] :=
  ⟨by simp [envNoItems], fun _ _ _ _ => rfl, rfl⟩

/-- C8 (amended): with zero price history anywhere, at least one active
entry, at least one store (with distinct ids) and `max_stores ≥ 1`, the
planner selects exactly the first `max_stores` stores ordered by favorite
first, then priority descending, then lowercased name, and the returned
store list is non-empty. -/
theorem C8_zero_history_fallback (env : PlanEnv)
    (max_stores days_back history_limit : Nat)
    (hi : env.activeItems ≠ []) (hs : env.stores ≠ [])
    (hnd : (env.stores.map (·.id)).Nodup)
    (hzero : ∀ i d s l, env.getPrices i d s l = [])
    (hm : 1 ≤ max_stores) :
    (build_plan_for_active_list env max_stores days_back history_limit).stores.map (·.1) =
      ((sortS fbLt env.stores).take max_stores).map (·.id) ∧
    (build_plan_for_active_list env max_stores days_back history_limit).stores ≠ [] := by
  have hibs : ∀ p ∈ itemBestStore env days_back history_limit, p.2 = none :=
    itemBestStore_values_none hzero days_back history_limit
  have hsc : storeScores env (itemBestStore env days_back history_limit) = [] :=
    storeScores_nil_of_none hibs
  have hchosen : chosenStoreIds env (itemBestStore env days_back history_limit)
      max_stores = ((sortS fbLt env.stores).take max_stores).map (·.id) := by
    unfold chosenStoreIds
    rw [if_pos hsc]
    rfl
  have hchnd : (chosenStoreIds env (itemBestStore env days_back history_limit)
      max_stores).Nodup := by
    rw [hchosen]
    have hperm : List.Perm ((sortS fbLt env.stores).map (·.id))
        (env.stores.map (·.id)) := (perm_sortS fbLt env.stores).map _
    have hnd2 : ((sortS fbLt env.stores).map (·.id)).Nodup :=
      hperm.nodup_iff.mpr hnd
    rw [List.map_take]
    exact List.Nodup.sublist (List.take_sublist _ _) hnd2
  have hne := chosenStoreIds_ne_nil
    (itemBestStore env days_back history_limit) hs hm
  obtain ⟨c, hc⟩ := List.exists_mem_of_ne_nil _ hne
  obtain ⟨s, hsmem, hsid⟩ := chosenStoreIds_valid c hc
  have hex : ∃ t ∈ env.stores, t.id ∈
      chosenStoreIds env (itemBestStore env days_back history_limit) max_stores :=
    ⟨s, hsmem, hsid ▸ hc⟩
  obtain ⟨f, hf⟩ := Option.isSome_iff_exists.mp
    (genericFallback_isSome hs
      (chosenStoreIds env (itemBestStore env days_back history_limit) max_stores))
  have hfc := genericFallback_mem_chosen hex hf
  have hkeq := assign_keys_eq _ hf hfc (itemBestStore env days_back history_limit)
    env.activeItems
    (initPlan (chosenStoreIds env (itemBestStore env days_back history_limit)
      max_stores), [])
    (fun c2 hc2 => mem_initPlan_keys hc2)
  have hkeys : dKeys (planSplit env (itemBestStore env days_back history_limit)
      (chosenStoreIds env (itemBestStore env days_back history_limit) max_stores)
      (_choose_generic_fallback_store env.stores
        (chosenStoreIds env (itemBestStore env days_back history_limit)
          max_stores))).1 =
      chosenStoreIds env (itemBestStore env days_back history_limit) max_stores := by
    unfold planSplit
    rw [hf]
    rw [hf] at hkeq
    rw [hkeq.1]
    exact initPlan_keys_eq hchnd
  have hvalid : ∀ k ∈ dKeys (planSplit env (itemBestStore env days_back history_limit)
      (chosenStoreIds env (itemBestStore env days_back history_limit) max_stores)
      (_choose_generic_fallback_store env.stores
        (chosenStoreIds env (itemBestStore env days_back history_limit)
          max_stores))).1, ∃ t ∈ env.stores, t.id = k := by
    intro k hk
    rw [hkeys] at hk
    exact chosenStoreIds_valid k hk
  constructor
  · unfold build_plan_for_active_list
    rw [if_neg (not_or.mpr ⟨hi, hs⟩)]
    show (storesStruct env (planSplit env (itemBestStore env days_back history_limit)
      (chosenStoreIds env (itemBestStore env days_back history_limit) max_stores)
      (_choose_generic_fallback_store env.stores
        (chosenStoreIds env (itemBestStore env days_back history_limit)
          max_stores))).1 _).map (·.1) =
      ((sortS fbLt env.stores).take max_stores).map (·.id)
    rw [storesStruct_fst _ hvalid, hkeys, hchosen]
  · unfold build_plan_for_active_list
    rw [if_neg (not_or.mpr ⟨hi, hs⟩)]
    show (storesStruct env (planSplit env (itemBestStore env days_back history_limit)
      (chosenStoreIds env (itemBestStore env days_back history_limit) max_stores)
      (_choose_generic_fallback_store env.stores
        (chosenStoreIds env (itemBestStore env days_back history_limit)
          max_stores))).1 _) ≠ []
    intro hnil
    have hmap := storesStruct_fst (_compute_costs env
      (planSplit env (itemBestStore env days_back history_limit)
        (chosenStoreIds env (itemBestStore env days_back history_limit) max_stores)
        (_choose_generic_fallback_store env.stores
          (chosenStoreIds env (itemBestStore env days_back history_limit)
            max_stores))).1
      (planSplit env (itemBestStore env days_back history_limit)
        (chosenStoreIds env (itemBestStore env days_back history_limit) max_stores)
        (_choose_generic_fallback_store env.stores
          (chosenStoreIds env (itemBestStore env days_back history_limit)
            max_stores))).2
      (_choose_baseline_store env.stores) days_back history_limit) hvalid
    rw [hnil, hkeys] at hmap
    exact hne hmap.symm

/-- C8 witness: a concrete two-store snapshot with zero history; the favorite
higher-priority store is selected first. -/
theorem C8_zero_history_fallback_witness :
    (build_plan_for_active_list envTwo 1 180 12).stores.map (·.1) =
      ((sortS fbLt envTwo.stores).take 1).map (·.id) ∧
    (build_plan_for_active_list envTwo 1 180 12).stores ≠ [] :=
  C8_zero_history_fallback envTwo 1 180 12 (by simp [envTwo]) (by simp [envTwo])
    (by simp [envTwo]) (fun _ _ _ _ => rfl) (by decide)

/-! ## Lemmas: multi-buy deal service -/

theorem string_append_left_ne {s : String} {t : String} (h : s ≠ "") :
    s ++ t ≠ "" := by
  intro he
  apply h
  have hd : s.data ++ t.data = [] := by
    rw [← String.data_append, he]
  have hs : s.data = [] := (List.append_eq_nil.mp hd).1
  cases s
  simp_all

theorem pyQty_pos (o : Option ℚ) :
    0 < (match o with | some v => if 0 < v then v else 1 | none => (1 : ℚ)) := by
  cases o with
  | none => norm_num
  | some v =>
    show 0 < if 0 < v then v else (1 : ℚ)
    by_cases h : 0 < v
    · rwa [if_pos h]
    · rw [if_neg h]
      norm_num

theorem guard_pos {q0 : Nat} {t0 : ℚ} {alt : Option (Nat × ℚ)} {qty : Nat}
    {total : ℚ} (halt : alt = some (qty, total) → 0 < qty ∧ 0 < total)
    (h : (if 0 < q0 ∧ 0 < t0 then some (q0, t0) else alt) = some (qty, total)) :
    0 < qty ∧ 0 < total := by
  by_cases hc : 0 < q0 ∧ 0 < t0
  · rw [if_pos hc] at h
    have hp : q0 = qty ∧ t0 = total := by
      have h2 := Option.some.inj h
      exact Prod.mk.inj h2
    exact hp.1 ▸ hp.2 ▸ hc
  · rw [if_neg hc] at h
    exact halt h

theorem parse_at_pos {text : List Char} {qty : Nat} {each : ℚ}
    (h : _parse_at_price text = some (qty, each)) : 0 < qty ∧ 0 < each := by
  unfold _parse_at_price at h
  cases hat : reSearch (sepPairAt ("@".data)) (text.map Char.toLower) with
  | some p =>
    obtain ⟨q0, e0⟩ := p
    rw [hat] at h
    exact guard_pos (fun hn => by simp at hn) h
  | none =>
    rw [hat] at h
    simp at h

theorem parse_for_pos {t : List Char} {qty : Nat} {total : ℚ}
    (h : parseForPrice t = some (qty, total)) : 0 < qty ∧ 0 < total := by
  unfold parseForPrice at h
  cases hf : reSearch (sepPairAt ("for".data)) t with
  | some p =>
    obtain ⟨q2, t2⟩ := p
    rw [hf] at h
    exact guard_pos (fun hn => by simp at hn) h
  | none =>
    rw [hf] at h
    simp at h

theorem parse_bundle_pos {text : List Char} {qty : Nat} {total : ℚ}
    (h : _parse_bundle_price text = some (qty, total)) : 0 < qty ∧ 0 < total := by
  unfold _parse_bundle_price at h
  cases hsl : reSearch (sepPairAt ("/".data)) (text.map Char.toLower) with
  | some p =>
    obtain ⟨q0, t0⟩ := p
    rw [hsl] at h
    exact guard_pos (fun hn => parse_for_pos hn) h
  | none =>
    rw [hsl] at h
    exact parse_for_pos h

/-! ## Claim theorems: Deal Normalizer -/

/-- C2 counterexample: for a BOGO description with `lineTotal = 3`,
`discount = 5`, `quantity = 2` and `unitPrice = 10`, the base total exists
and the quantity is at least 2, yet `adjust` leaves the unit price at 10
because the net total `3 − 5` is not positive — it does not return
`(baseTotal − discount) / quantity = −1`. -/
theorem C2_counterexample :
    reBogoSearch ((pyStripL (("bogo" : String).data)).map Char.toLower) = true ∧
    MultiBuyDealService.adjust ⟨"bogo", some 2, some 10, some 3, some 5⟩ =
      some ⟨2, some 10, some 3, "bogo_detected_no_adjust"⟩ ∧
    some ((3 - 5 : ℚ) / 2) ≠ some (10 : ℚ) := by
  refine ⟨rfl, ?_, ?_⟩
  · have h1 : MultiBuyDealService.adjust ⟨"bogo", some 2, some 10, some 3, some 5⟩ =
        MultiBuyDealService.adjustBody (pyStripL (("bogo" : String).data)) 2
          (some 10) (some 3) 5 := by
      unfold MultiBuyDealService.adjust
      norm_num
    rw [h1]
    unfold MultiBuyDealService.adjustBody
    have hb : reBogoSearch
        ((pyStripL (("bogo" : String).data)).map Char.toLower) = true := rfl
    simp only [hb, if_true]
    rw [if_pos (le_refl (2 : ℚ)), if_neg (show ¬ ((0 : ℚ) < 3 - 5) by norm_num)]
  · intro h
    have h2 := Option.some.inj h
    norm_num at h2

/-- C2 (amended): for a BOGO description, if a usable base total exists
(lineTotal if present, else unitPrice × quantity), the quantity is at least 2
and the net total `baseTotal − discount` is positive, then the returned unit
price equals `(baseTotal − discount) / quantity`. -/
theorem C2_bogo_effective (inp : AdjustInput) (qv bt : ℚ)
    (hbogo : reBogoSearch ((pyStripL inp.description.data).map Char.toLower) = true)
    (hq : inp.quantity = some qv) (hq2 : 2 ≤ qv)
    (hbt : bogoBaseTotal inp qv = some bt)
    (hnet : 0 < bt - inp.discount.getD 0) :
    MultiBuyDealService.adjust inp =
      some ⟨qv, some ((bt - inp.discount.getD 0) / qv),
        some (bt - inp.discount.getD 0), "bogo_effective_price"⟩ := by
  have h0 : (0 : ℚ) < qv := by linarith
  have hqne : qv ≠ 0 := ne_of_gt h0
  unfold MultiBuyDealService.adjust MultiBuyDealService.adjustBody
  simp only [hq, if_pos h0, hbogo, if_true]
  cases hlt : inp.line_total with
  | some l =>
    have hbtl : bt = l := by
      unfold bogoBaseTotal at hbt
      rw [hlt] at hbt
      exact (Option.some.inj hbt).symm
    subst hbtl
    simp only [hlt, if_pos hq2, if_pos hnet, divC, if_neg hqne, Option.some_bind]
    rfl
  | none =>
    unfold bogoBaseTotal at hbt
    rw [hlt] at hbt
    cases hup : inp.unit_price with
    | none =>
      rw [hup] at hbt
      simp at hbt
    | some u =>
      rw [hup] at hbt
      have hbtu : bt = u * qv := by
        simpa using hbt.symm
      subst hbtu
      simp only [hlt, hup, Option.map_some', if_pos hq2, if_pos hnet, divC,
        if_neg hqne, Option.some_bind]
      rfl

theorem adjustBody_total (desc : List Char) (q : ℚ) (up lt0 : Option ℚ)
    (disc : ℚ) (hq : 0 < q) :
    ∃ r, MultiBuyDealService.adjustBody desc q up lt0 disc = some r ∧
      r.deal_note ≠ "" := by
  have hqne : q ≠ 0 := ne_of_gt hq
  unfold MultiBuyDealService.adjustBody
  by_cases hbogo : reBogoSearch (desc.map Char.toLower) = true
  · simp only [hbogo, if_true]
    cases lt0 with
    | some l =>
      dsimp only
      by_cases h2 : 2 ≤ q
      · rw [if_pos h2]
        by_cases hnet : 0 < l - disc
        · rw [if_pos hnet]
          simp only [divC, if_neg hqne, Option.some_bind]
          exact ⟨_, rfl, (by decide : ("bogo_effective_price" : String) ≠ "")⟩
        · rw [if_neg hnet]
          exact ⟨_, rfl, (by decide : ("bogo_detected_no_adjust" : String) ≠ "")⟩
      · rw [if_neg h2]
        exact ⟨_, rfl, (by decide : ("bogo_detected_no_adjust" : String) ≠ "")⟩
    | none =>
      cases up with
      | some u =>
        dsimp only
        simp only [Option.map_some']
        by_cases h2 : 2 ≤ q
        · rw [if_pos h2]
          by_cases hnet : 0 < u * q - disc
          · rw [if_pos hnet]
            simp only [divC, if_neg hqne, Option.some_bind]
            exact ⟨_, rfl, (by decide : ("bogo_effective_price" : String) ≠ "")⟩
          · rw [if_neg hnet]
            exact ⟨_, rfl, (by decide : ("bogo_detected_no_adjust" : String) ≠ "")⟩
        · rw [if_neg h2]
          exact ⟨_, rfl, (by decide : ("bogo_detected_no_adjust" : String) ≠ "")⟩
      | none =>
        dsimp only
        simp only [Option.map_none']
        exact ⟨_, rfl, (by decide : ("bogo_detected_no_adjust" : String) ≠ "")⟩
  · rw [if_neg hbogo]
    cases hbp : _parse_bundle_price desc with
    | some p =>
      obtain ⟨bq, btot⟩ := p
      obtain ⟨hbq, _⟩ := parse_bundle_pos hbp
      have hbq0 : (0 : ℚ) < (bq : ℚ) := by exact_mod_cast hbq
      have hbqne : ((bq : ℚ)) ≠ 0 := ne_of_gt hbq0
      simp only [hbp]
      cases lt0 with
      | some l =>
        dsimp only
        by_cases hfix : q < (bq : ℚ) ∧ pyClose l btot = true
        · rw [if_pos hfix]
          simp only [if_pos hbq0, divC, if_neg hbqne, Option.map_some',
            Option.some_bind]
          exact ⟨_, rfl, string_append_left_ne (string_append_left_ne
            (string_append_left_ne (string_append_left_ne
              (string_append_left_ne (by decide)))))⟩
        · rw [if_neg hfix, if_pos hq]
          simp only [divC, if_neg hqne, Option.some_bind]
          exact ⟨_, rfl, string_append_left_ne (string_append_left_ne
            (string_append_left_ne (string_append_left_ne
              (string_append_left_ne (by decide)))))⟩
      | none =>
        dsimp only
        simp only [divC, if_neg hbqne, Option.some_bind]
        exact ⟨_, rfl, string_append_left_ne (string_append_left_ne
          (string_append_left_ne (string_append_left_ne
            (string_append_left_ne (by decide)))))⟩
    | none =>
      simp only [hbp]
      cases hap : _parse_at_price desc with
      | some p =>
        obtain ⟨aq, each⟩ := p
        obtain ⟨haq, _⟩ := parse_at_pos hap
        have haq0 : (0 : ℚ) < (aq : ℚ) := by exact_mod_cast haq
        simp only [hap]
        cases lt0 with
        | some l =>
          dsimp only
          have hq2pos : 0 < (if q < ((aq : ℚ)) then
              (if pyClose l ((aq : ℚ) * each) = true then ((aq : ℚ)) else q)
              else q) := by
            by_cases h1 : q < (aq : ℚ)
            · rw [if_pos h1]
              by_cases hcl : pyClose l ((aq : ℚ) * each) = true
              · rw [if_pos hcl]
                exact haq0
              · rw [if_neg hcl]
                exact hq
            · rw [if_neg h1]
              exact hq
          rw [if_pos hq2pos]
          simp only [divC, if_neg (ne_of_gt hq2pos), Option.some_bind]
          exact ⟨_, rfl, string_append_left_ne (string_append_left_ne
            (string_append_left_ne (string_append_left_ne (by decide))))⟩
        | none =>
          dsimp only
          have hq2pos : 0 < (if q < ((aq : ℚ)) then ((aq : ℚ)) else q) := by
            by_cases h1 : q < (aq : ℚ)
            · rw [if_pos h1]
              exact haq0
            · rw [if_neg h1]
              exact hq
          rw [if_pos hq2pos]
          simp only [divC, if_neg (ne_of_gt hq2pos), Option.some_bind]
          exact ⟨_, rfl, string_append_left_ne (string_append_left_ne
            (string_append_left_ne (string_append_left_ne (by decide))))⟩
      | none =>
        simp only
        cases lt0 with
        | some l =>
          cases up with
          | none =>
            dsimp only
            rw [if_pos ⟨rfl, hq⟩]
            simp only [divC, if_neg hqne, Option.some_bind]
            exact ⟨_, rfl, (by decide : ("unit_from_total" : String) ≠ "")⟩
          | some u =>
            dsimp only
            by_cases hu : u ≤ 0
            · rw [if_pos ⟨by simpa using hu, hq⟩]
              simp only [divC, if_neg hqne, Option.some_bind]
              exact ⟨_, rfl, (by decide : ("unit_from_total" : String) ≠ "")⟩
            · rw [if_neg (fun hc => hu (by simpa using hc.1))]
              exact ⟨_, rfl, (by decide : ("no_deal" : String) ≠ "")⟩
        | none =>
          dsimp only
          exact ⟨_, rfl, (by decide : ("no_deal" : String) ≠ "")⟩

/-- C4: `adjust` is total — for every input of the expected types it returns
a `DealAdjusted` (every division it performs has a nonzero divisor, certified
by the checked division `divC`), and the result always carries a non-empty
explanatory note tag. -/
theorem C4_adjust_total (inp : AdjustInput) :
    ∃ r, MultiBuyDealService.adjust inp = some r ∧ r.deal_note ≠ "" := by
  unfold MultiBuyDealService.adjust
  exact adjustBody_total _ _ _ _ _ (pyQty_pos inp.quantity)

/-- C2 witness: the spec example — Buy 1 Get 1 with lineTotal 6.00, discount
3.00, quantity 2 gives effective unit price 1.50. -/
theorem C2_bogo_effective_witness :
    MultiBuyDealService.adjust ⟨"Buy 1 Get 1", some 2, none, some 6, some 3⟩ =
      some ⟨2, some ((6 - (3 : ℚ)) / 2), some (6 - (3 : ℚ)),
        "bogo_effective_price"⟩ :=
  C2_bogo_effective ⟨"Buy 1 Get 1", some 2, none, some 6, some 3⟩ 2 6 rfl rfl
    (by norm_num) rfl (by norm_num)

/-! ## Claim theorems: Unit Normalizer conversions -/

theorem convert_lb_kg (p : ℚ) :
    UnitNormalizationService._convert p "lb" "kg" = some (p * KG_TO_LB) := by
  unfold UnitNormalizationService._convert
  have e1 : UnitNormalizationService._normalize_unit "lb" = "lb" := rfl
  have e2 : UnitNormalizationService._normalize_unit "kg" = "kg" := rfl
  rw [e1, e2]
  rw [if_neg (by decide), if_pos ⟨rfl, rfl⟩]

theorem convert_kg_lb (p : ℚ) :
    UnitNormalizationService._convert p "kg" "lb" = some (p * LB_TO_KG) := by
  unfold UnitNormalizationService._convert
  have e1 : UnitNormalizationService._normalize_unit "kg" = "kg" := rfl
  have e2 : UnitNormalizationService._normalize_unit "lb" = "lb" := rfl
  rw [e1, e2]
  rw [if_neg (by decide), if_neg (by decide), if_pos ⟨rfl, rfl⟩]

theorem convert_g_kg (p : ℚ) :
    UnitNormalizationService._convert p "g" "kg" = some (p * 1000) := by
  unfold UnitNormalizationService._convert
  have e1 : UnitNormalizationService._normalize_unit "g" = "g" := rfl
  have e2 : UnitNormalizationService._normalize_unit "kg" = "kg" := rfl
  rw [e1, e2]
  rw [if_neg (by decide), if_neg (by decide), if_neg (by decide),
    if_pos ⟨rfl, rfl⟩]

theorem convert_kg_g (p : ℚ) :
    UnitNormalizationService._convert p "kg" "g" = some (p / 1000) := by
  unfold UnitNormalizationService._convert
  have e1 : UnitNormalizationService._normalize_unit "kg" = "kg" := rfl
  have e2 : UnitNormalizationService._normalize_unit "g" = "g" := rfl
  rw [e1, e2]
  rw [if_neg (by decide), if_neg (by decide), if_neg (by decide),
    if_neg (by decide), if_pos ⟨rfl, rfl⟩]

/-- C3 counterexample: the lb→kg→lb round trip multiplies the price by
`KG_TO_LB * LB_TO_KG`, and that constant differs from 1 by about `2.2e-11` —
five orders of magnitude more than the double-precision machine epsilon
`2^-52 ≈ 2.2e-16` — because `KG_TO_LB = 2.2046226218` is a truncation of
`1 / LB_TO_KG`.  At `p = 1` the round trip is off by more than `2^-52`. -/
theorem C3_counterexample :
    ∃ c, (UnitNormalizationService._convert 1 "lb" "kg").bind
        (fun x => UnitNormalizationService._convert x "kg" "lb") = some c ∧
      |c - 1| > 1 / 2 ^ 52 := by
  refine ⟨1 * KG_TO_LB * LB_TO_KG, ?_, ?_⟩
  · rw [convert_lb_kg, Option.some_bind, convert_kg_lb]
  · rw [gt_iff_lt, lt_abs]
    right
    rw [KG_TO_LB, LB_TO_KG]
    norm_num

/-- C3 (amended): the g→kg→g round trip through `_convert` is exact, and the
lb→kg→lb round trip returns `p · (KG_TO_LB · LB_TO_KG)`, which is within a
relative error of `10^-10` of `p` (but not within double machine epsilon). -/
theorem C3_round_trip (p : ℚ) :
    (UnitNormalizationService._convert p "g" "kg").bind
      (fun x => UnitNormalizationService._convert x "kg" "g") = some p ∧
    (UnitNormalizationService._convert p "lb" "kg").bind
      (fun x => UnitNormalizationService._convert x "kg" "lb") =
      some (p * (KG_TO_LB * LB_TO_KG)) ∧
    |p * (KG_TO_LB * LB_TO_KG) - p| ≤ |p| / 10 ^ 10 := by
  refine ⟨?_, ?_, ?_⟩
  · rw [convert_g_kg, Option.some_bind, convert_kg_g]
    congr 1
    field_simp
  · rw [convert_lb_kg, Option.some_bind, convert_kg_lb, mul_assoc]
  · have hfac : p * (KG_TO_LB * LB_TO_KG) - p = p * (KG_TO_LB * LB_TO_KG - 1) := by
      ring
    rw [hfac, abs_mul]
    have hbound : |KG_TO_LB * LB_TO_KG - 1| ≤ 1 / 10 ^ 10 := by
      rw [abs_le, KG_TO_LB, LB_TO_KG]
      constructor <;> norm_num
    calc |p| * |KG_TO_LB * LB_TO_KG - 1| ≤ |p| * (1 / 10 ^ 10) :=
          mul_le_mul_of_nonneg_left hbound (abs_nonneg p)
      _ = |p| / 10 ^ 10 := by ring

/-! ## Lemmas: unit normalization state -/

namespace UnitNormalizationService

theorem normalize_snd (st : ItemsTable) (item_id : Int) (p : ℚ) (u : String)
    (d : Option String) :
    (normalize st item_id p u d).2 =
      set_item_default_unit_if_missing st item_id (obsUnit u d) := by
  unfold normalize
  dsimp only
  split
  · rfl
  · split <;> rfl

theorem setDefault_frame (st : ItemsTable) (id : Int) (ou : String) (j : Int)
    (hj : j ≠ id) : set_item_default_unit_if_missing st id ou j = st j := by
  unfold set_item_default_unit_if_missing
  by_cases hg : _normalize_unit ou ∈ (["each", "lb", "kg", "g"] : List String)
  · rw [if_pos hg]
    cases hget : get_item_default_unit st id with
    | some w => simp only [hget]
    | none => simp only [hget, if_neg hj]
  · rw [if_neg hg]

theorem setDefault_of_get_some (st : ItemsTable) (id : Int) (ou : String)
    (w : String) (h : get_item_default_unit st id = some w) :
    set_item_default_unit_if_missing st id ou = st := by
  unfold set_item_default_unit_if_missing
  by_cases hg : _normalize_unit ou ∈ (["each", "lb", "kg", "g"] : List String)
  · rw [if_pos hg]
    simp only [h]
  · rw [if_neg hg]

theorem get_some_of_nonblank (st : ItemsTable) (id : Int) (v : String)
    (hst : st id = some (some v)) (hnb : pyStrip v ≠ "") :
    ∃ w, get_item_default_unit st id = some w := by
  unfold get_item_default_unit
  simp only [hst]
  have hv : v ≠ "" := by
    intro hv0
    apply hnb
    rw [hv0]
    rfl
  rw [if_neg hv]
  have hw : pyLower (pyStrip v) ≠ "" := by
    intro h0
    apply hnb
    have hd : ((pyStrip v).data.map Char.toLower) = ([] : List Char) :=
      congrArg String.data h0
    have hdd : (pyStrip v).data = [] := List.map_eq_nil_iff.mp hd
    calc pyStrip v = String.mk (pyStrip v).data := rfl
      _ = String.mk [] := by rw [hdd]
      _ = "" := rfl
  rw [if_neg hw]
  exact ⟨_, rfl⟩

theorem setDefault_at_id (st : ItemsTable) (id : Int) (ou : String) :
    set_item_default_unit_if_missing st id ou id = st id ∨
    (set_item_default_unit_if_missing st id ou id =
        some (some (_normalize_unit ou)) ∧ IsUnit (_normalize_unit ou)) := by
  unfold set_item_default_unit_if_missing
  by_cases hg : _normalize_unit ou ∈ (["each", "lb", "kg", "g"] : List String)
  · rw [if_pos hg]
    cases hget : get_item_default_unit st id with
    | some w => simp [hget]
    | none =>
      cases hst : st id with
      | none =>
        left
        simp [hget, hst]
      | some c =>
        right
        refine ⟨by simp [hget, hst], ?_⟩
        simpa [IsUnit] using hg
  · rw [if_neg hg]
    left
    rfl

theorem normalize_unit_mem5 (u : String) :
    IsUnit (_normalize_unit u) ∨ _normalize_unit u = "unknown" := by
  unfold _normalize_unit
  split
  · exact Or.inr rfl
  · dsimp only
    split
    · exact Or.inl (Or.inl rfl)
    · split
      · exact Or.inl (Or.inr (Or.inl rfl))
      · split
        · exact Or.inl (Or.inr (Or.inr (Or.inl rfl)))
        · split
          · exact Or.inl (Or.inr (Or.inr (Or.inr rfl)))
          · exact Or.inr rfl

theorem guess_mem (t : String) :
    guess_unit_from_text t = "kg" ∨ guess_unit_from_text t = "g" ∨
    guess_unit_from_text t = "lb" ∨ guess_unit_from_text t = "unknown" := by
  unfold guess_unit_from_text
  dsimp only
  split
  · exact Or.inl rfl
  · split
    · exact Or.inr (Or.inl rfl)
    · split
      · exact Or.inr (Or.inr (Or.inl rfl))
      · exact Or.inr (Or.inr (Or.inr rfl))

theorem obsUnit_mem (u : String) (d : Option String) : IsUnit (obsUnit u d) := by
  unfold obsUnit
  dsimp only
  by_cases h0 : _normalize_unit u = "unknown"
  · rw [if_pos h0]
    rcases guess_mem (d.getD "") with hg | hg | hg | hg
    · rw [hg]
      rw [if_neg (by decide)]
      exact Or.inr (Or.inr (Or.inl rfl))
    · rw [hg]
      rw [if_neg (by decide)]
      exact Or.inr (Or.inr (Or.inr rfl))
    · rw [hg]
      rw [if_neg (by decide)]
      exact Or.inr (Or.inl rfl)
    · rw [hg]
      rw [if_pos rfl]
      exact Or.inl rfl
  · rw [if_neg h0, if_neg h0]
    rcases normalize_unit_mem5 u with hm | hm
    · exact hm
    · exact absurd hm h0

theorem getD_of_unit_cell (st1 : ItemsTable) (id : Int) (obs x : String)
    (hx : IsUnit x) (hcell : st1 id = some (some x)) :
    (get_item_default_unit st1 id).getD obs = x := by
  have hg : get_item_default_unit st1 id = some x := by
    rcases hx with h | h | h | h <;>
      (subst h; unfold get_item_default_unit; rw [hcell]; rfl)
  rw [hg]
  rfl

end UnitNormalizationService

/-! ## Claim theorems: Unit Normalizer state -/

open UnitNormalizationService

/-- C6 counterexample: an item whose stored `default_unit` is the non-empty
string `" "` (a single space) is treated as unset by
`get_item_default_unit` (which strips whitespace), so `normalize` overwrites
it: the claim as stated fails for a whitespace-only stored unit. -/
theorem C6_counterexample :
    stBlank 1 = some (some " ") ∧ (" " : String) ≠ "" ∧
    (UnitNormalizationService.normalize stBlank 1 1 "lb" none).2 1 = some (some "lb") ∧
    some (some (" " : String)) ≠ some (some ("lb" : String)) :=
  ⟨rfl, by decide, rfl, by decide⟩

/-- C6 (amended): `normalize` changes no other item row; an item whose
stored `default_unit` is non-blank (non-empty after stripping whitespace)
keeps it unchanged; and the cell of the given item is either left unchanged
or written with one of each/lb/kg/g. -/
theorem C6_default_unit_frame (st : ItemsTable) (item_id : Int) (p : ℚ)
    (u : String) (d : Option String) :
    (∀ j, j ≠ item_id → (UnitNormalizationService.normalize st item_id p u d).2 j = st j) ∧
    (∀ v, st item_id = some (some v) → pyStrip v ≠ "" →
      (UnitNormalizationService.normalize st item_id p u d).2 item_id = st item_id) ∧
    ((UnitNormalizationService.normalize st item_id p u d).2 item_id = st item_id ∨
      ∃ w, (UnitNormalizationService.normalize st item_id p u d).2 item_id = some (some w) ∧
        (w = "each" ∨ w = "lb" ∨ w = "kg" ∨ w = "g")) := by
  rw [normalize_snd]
  refine ⟨fun j hj => setDefault_frame st item_id _ j hj, fun v hv hnb => ?_, ?_⟩
  · obtain ⟨w, hw⟩ := get_some_of_nonblank st item_id v hv hnb
    rw [setDefault_of_get_some st item_id _ w hw]
  · rcases setDefault_at_id st item_id (obsUnit u d) with h | ⟨h1, h2⟩
    · exact Or.inl h
    · exact Or.inr ⟨_, h1, h2⟩

/-- C6 witness: an item with `default_unit = "lb"` observing a kg price —
no row of the table changes. -/
theorem C6_default_unit_frame_witness :
    (UnitNormalizationService.normalize stLb 1 1 "kg" none).2 2 = stLb 2 ∧
    (UnitNormalizationService.normalize stLb 1 1 "kg" none).2 1 = stLb 1 :=
  ⟨(C6_default_unit_frame stLb 1 1 "kg" none).1 2 (by decide),
   (C6_default_unit_frame stLb 1 1 "kg" none).2.1 "lb" rfl (by decide)⟩

/-- C10: when the stored `default_unit` is one of each/lb/kg/g or unset
(missing row, NULL), the `norm_unit` returned by `normalize` is one of
each/lb/kg/g. -/
theorem C10_norm_unit_canonical (st : ItemsTable) (item_id : Int) (p : ℚ)
    (u : String) (d : Option String)
    (h : st item_id = none ∨ st item_id = some none ∨
      st item_id = some (some "each") ∨ st item_id = some (some "lb") ∨
      st item_id = some (some "kg") ∨ st item_id = some (some "g")) :
    (UnitNormalizationService.normalize st item_id p u d).1.norm_unit = "each" ∨
    (UnitNormalizationService.normalize st item_id p u d).1.norm_unit = "lb" ∨
    (UnitNormalizationService.normalize st item_id p u d).1.norm_unit = "kg" ∨
    (UnitNormalizationService.normalize st item_id p u d).1.norm_unit = "g" := by
  have Hobs : IsUnit (obsUnit u d) := obsUnit_mem u d
  have Hdu : IsUnit ((get_item_default_unit
      (set_item_default_unit_if_missing st item_id (obsUnit u d))
      item_id).getD (obsUnit u d)) := by
    rcases setDefault_at_id st item_id (obsUnit u d) with hcell | ⟨hcell, hmem⟩
    · have hco : ∀ w, st item_id = some (some w) → IsUnit w →
          IsUnit ((get_item_default_unit
            (set_item_default_unit_if_missing st item_id (obsUnit u d))
            item_id).getD (obsUnit u d)) := by
        intro w hw hiw
        rw [getD_of_unit_cell _ _ _ w hiw (hcell.trans hw)]
        exact hiw
      rcases h with h6 | h6 | h6 | h6 | h6 | h6
      · have hg : get_item_default_unit
            (set_item_default_unit_if_missing st item_id (obsUnit u d))
            item_id = none := by
          unfold get_item_default_unit
          rw [hcell, h6]
        rw [hg]
        exact Hobs
      · have hg : get_item_default_unit
            (set_item_default_unit_if_missing st item_id (obsUnit u d))
            item_id = none := by
          unfold get_item_default_unit
          rw [hcell, h6]
        rw [hg]
        exact Hobs
      · exact hco _ h6 (Or.inl rfl)
      · exact hco _ h6 (Or.inr (Or.inl rfl))
      · exact hco _ h6 (Or.inr (Or.inr (Or.inl rfl)))
      · exact hco _ h6 (Or.inr (Or.inr (Or.inr rfl)))
    · rw [getD_of_unit_cell _ _ _ _ hmem hcell]
      exact hmem
  unfold UnitNormalizationService.normalize
  dsimp only
  split
  · exact Hdu
  · split
    · exact Hobs
    · exact Hdu

/-- C10 witness: an item with a NULL `default_unit` observing an unmarked
unit resolves to a canonical unit. -/
theorem C10_norm_unit_canonical_witness :
    stNull 1 = some none ∧
    ((UnitNormalizationService.normalize stNull 1 1 "lb" none).1.norm_unit = "each" ∨
     (UnitNormalizationService.normalize stNull 1 1 "lb" none).1.norm_unit = "lb" ∨
     (UnitNormalizationService.normalize stNull 1 1 "lb" none).1.norm_unit = "kg" ∨
     (UnitNormalizationService.normalize stNull 1 1 "lb" none).1.norm_unit = "g") :=
  ⟨rfl, C10_norm_unit_canonical stNull 1 1 "lb" none (Or.inr (Or.inl rfl))⟩

/-! ## Lemmas: run splitting (for the text-normalization pipeline) -/

theorem splitRuns_nil_eq (p : Char → Bool) : splitRuns p [] = [] := rfl

theorem splitRuns_cons_neg {p : Char → Bool} {c : Char} (h : p c = false)
    (cs : List Char) : splitRuns p (c :: cs) = splitRuns p cs := by
  simp [splitRuns, h]

theorem splitRuns_cons_pos {p : Char → Bool} {c : Char} (h : p c = true)
    (cs : List Char) :
    splitRuns p (c :: cs) =
      (c :: cs.takeWhile p) :: splitRuns p (cs.dropWhile p) := by
  induction cs generalizing c with
  | nil => simp [splitRuns, h]
  | cons d cs2 ih =>
    by_cases hd : p d = true
    · have hrec := ih hd
      simp only [splitRuns, h, if_true, hd] at hrec ⊢
      rw [hrec]
      simp [List.takeWhile_cons_of_pos hd, List.dropWhile_cons_of_pos hd]
    · have hd2 : p d = false := Bool.not_eq_true _ ▸ Bool.eq_false_iff.mpr hd
      simp only [splitRuns, h, if_true, hd2]
      simp [List.takeWhile_cons_of_neg, List.dropWhile_cons_of_neg, hd2,
        splitRuns_cons_neg hd2]

theorem takeWhile_eq_self_of_all {p : Char → Bool} {l : List Char}
    (h : l.all p = true) : l.takeWhile p = l := by
  induction l with
  | nil => rfl
  | cons c cs ih =>
    rw [List.all_cons, Bool.and_eq_true] at h
    rw [List.takeWhile_cons_of_pos h.1, ih h.2]

theorem dropWhile_eq_nil_of_all {p : Char → Bool} {l : List Char}
    (h : l.all p = true) : l.dropWhile p = [] := by
  induction l with
  | nil => rfl
  | cons c cs ih =>
    rw [List.all_cons, Bool.and_eq_true] at h
    rw [List.dropWhile_cons_of_pos h.1, ih h.2]

theorem takeWhile_append_all {p : Char → Bool} {xs : List Char}
    (h : xs.all p = true) (zs : List Char) :
    (xs ++ zs).takeWhile p = xs ++ zs.takeWhile p := by
  induction xs with
  | nil => rfl
  | cons c cs ih =>
    rw [List.all_cons, Bool.and_eq_true] at h
    rw [List.cons_append, List.takeWhile_cons_of_pos h.1, ih h.2,
      List.cons_append]

theorem dropWhile_append_all {p : Char → Bool} {xs : List Char}
    (h : xs.all p = true) (zs : List Char) :
    (xs ++ zs).dropWhile p = zs.dropWhile p := by
  induction xs with
  | nil => rfl
  | cons c cs ih =>
    rw [List.all_cons, Bool.and_eq_true] at h
    rw [List.cons_append, List.dropWhile_cons_of_pos h.1, ih h.2]

theorem takeWhile_append_not {p : Char → Bool} {xs : List Char}
    (h : xs.all p = false) (zs : List Char) :
    (xs ++ zs).takeWhile p = xs.takeWhile p := by
  induction xs with
  | nil => simp at h
  | cons c cs ih =>
    rw [List.all_cons, Bool.and_eq_false_iff] at h
    rcases h with h | h
    · rw [List.cons_append, List.takeWhile_cons_of_neg (by simp [h]),
        List.takeWhile_cons_of_neg (by simp [h])]
    · by_cases hc : p c = true
      · rw [List.cons_append, List.takeWhile_cons_of_pos hc,
          List.takeWhile_cons_of_pos hc, ih h]
      · have hc2 : p c = false := Bool.not_eq_true _ ▸ Bool.eq_false_iff.mpr hc
        rw [List.cons_append, List.takeWhile_cons_of_neg (by simp [hc2]),
          List.takeWhile_cons_of_neg (by simp [hc2])]

theorem dropWhile_append_not {p : Char → Bool} {xs : List Char}
    (h : xs.all p = false) (zs : List Char) :
    (xs ++ zs).dropWhile p = xs.dropWhile p ++ zs := by
  induction xs with
  | nil => simp at h
  | cons c cs ih =>
    rw [List.all_cons, Bool.and_eq_false_iff] at h
    rcases h with h | h
    · rw [List.cons_append, List.dropWhile_cons_of_neg (by simp [h]),
        List.dropWhile_cons_of_neg (by simp [h]), List.cons_append]
    · by_cases hc : p c = true
      · rw [List.cons_append, List.dropWhile_cons_of_pos hc,
          List.dropWhile_cons_of_pos hc, ih h]
      · have hc2 : p c = false := Bool.not_eq_true _ ▸ Bool.eq_false_iff.mpr hc
        rw [List.cons_append, List.dropWhile_cons_of_neg (by simp [hc2]),
          List.dropWhile_cons_of_neg (by simp [hc2]), List.cons_append]

theorem all_takeWhile_self (p : Char → Bool) (l : List Char) :
    (l.takeWhile p).all p = true := by
  induction l with
  | nil => rfl
  | cons c cs ih =>
    by_cases hc : p c = true
    · rw [List.takeWhile_cons_of_pos hc, List.all_cons, Bool.and_eq_true]
      exact ⟨hc, ih⟩
    · rw [List.takeWhile_cons_of_neg (by simpa using hc)]
      rfl

theorem splitRuns_sound_aux (p : Char → Bool) :
    ∀ (n : Nat) (s : List Char), s.length ≤ n →
      ∀ w ∈ splitRuns p s, w ≠ [] ∧ w.all p = true := by
  intro n
  induction n with
  | zero =>
    intro s hs w hw
    have hnil : s = [] := List.length_eq_zero.mp (Nat.le_zero.mp hs)
    subst hnil
    simp [splitRuns_nil_eq] at hw
  | succ n ih =>
    intro s hs w hw
    cases s with
    | nil => simp [splitRuns_nil_eq] at hw
    | cons c cs =>
      rw [List.length_cons] at hs
      by_cases hc : p c = true
      · rw [splitRuns_cons_pos hc] at hw
        rcases List.mem_cons.mp hw with h1 | h1
        · subst h1
          refine ⟨by simp, ?_⟩
          rw [List.all_cons, Bool.and_eq_true]
          exact ⟨hc, all_takeWhile_self p cs⟩
        · have hlen : (cs.dropWhile p).length ≤ n := by
            have hsub : (cs.dropWhile p).length ≤ cs.length :=
              (List.dropWhile_sublist p).length_le
            omega
          exact ih (cs.dropWhile p) hlen w h1
      · have hc2 : p c = false := Bool.not_eq_true _ ▸ Bool.eq_false_iff.mpr hc
        rw [splitRuns_cons_neg hc2] at hw
        exact ih cs (by omega) w hw

theorem splitRuns_sound (p : Char → Bool) (s : List Char) :
    ∀ w ∈ splitRuns p s, w ≠ [] ∧ w.all p = true :=
  splitRuns_sound_aux p s.length s (le_refl _)

theorem splitRuns_singleton {p : Char → Bool} {w : List Char} (hne : w ≠ [])
    (hall : w.all p = true) : splitRuns p w = [w] := by
  cases w with
  | nil => exact absurd rfl hne
  | cons c cs =>
    rw [List.all_cons, Bool.and_eq_true] at hall
    rw [splitRuns_cons_pos hall.1, takeWhile_eq_self_of_all hall.2,
      dropWhile_eq_nil_of_all hall.2, splitRuns_nil_eq]

theorem splitRuns_word_sep {p : Char → Bool} {w : List Char} {sep : Char}
    (hne : w ≠ []) (hall : w.all p = true) (hsep : p sep = false)
    (rest : List Char) :
    splitRuns p (w ++ sep :: rest) = w :: splitRuns p rest := by
  cases w with
  | nil => exact absurd rfl hne
  | cons c cs =>
    rw [List.all_cons, Bool.and_eq_true] at hall
    rw [List.cons_append, splitRuns_cons_pos hall.1,
      takeWhile_append_all hall.2, List.takeWhile_cons_of_neg (by simp [hsep]),
      List.append_nil, dropWhile_append_all hall.2,
      List.dropWhile_cons_of_neg (by simp [hsep]), splitRuns_cons_neg hsep]

theorem splitRuns_joinSp {p : Char → Bool} (hsp : p ' ' = false) :
    ∀ ws : List (List Char), (∀ w ∈ ws, w ≠ [] ∧ w.all p = true) →
      splitRuns p (joinSp ws) = ws := by
  intro ws
  induction ws with
  | nil => intro _; rfl
  | cons w ws ih =>
    intro hgood
    cases ws with
    | nil =>
      show splitRuns p w = [w]
      exact splitRuns_singleton (hgood w (List.mem_cons_self _ _)).1
        (hgood w (List.mem_cons_self _ _)).2
    | cons w2 ws2 =>
      show splitRuns p (w ++ ' ' :: joinSp (w2 :: ws2)) = w :: w2 :: ws2
      rw [splitRuns_word_sep (hgood w (List.mem_cons_self _ _)).1
        (hgood w (List.mem_cons_self _ _)).2 hsp]
      rw [ih (fun v hv => hgood v (List.mem_cons_of_mem _ hv))]

theorem splitRuns_append_sep_aux {p : Char → Bool} {sep : Char}
    (hsep : p sep = false) :
    ∀ (n : Nat) (xs : List Char), xs.length ≤ n → ∀ ys,
      splitRuns p (xs ++ sep :: ys) = splitRuns p xs ++ splitRuns p ys := by
  intro n
  induction n with
  | zero =>
    intro xs hxs ys
    have hnil : xs = [] := List.length_eq_zero.mp (Nat.le_zero.mp hxs)
    subst hnil
    rw [List.nil_append, splitRuns_cons_neg hsep, splitRuns_nil_eq,
      List.nil_append]
  | succ n ih =>
    intro xs hxs ys
    cases xs with
    | nil =>
      rw [List.nil_append, splitRuns_cons_neg hsep, splitRuns_nil_eq,
        List.nil_append]
    | cons c cs =>
      rw [List.length_cons] at hxs
      by_cases hc : p c = true
      · rw [List.cons_append, splitRuns_cons_pos hc, splitRuns_cons_pos hc]
        by_cases hall : cs.all p = true
        · rw [takeWhile_append_all hall, List.takeWhile_cons_of_neg
            (by simp [hsep]), List.append_nil, dropWhile_append_all hall,
            List.dropWhile_cons_of_neg (by simp [hsep]),
            splitRuns_cons_neg hsep, takeWhile_eq_self_of_all hall,
            dropWhile_eq_nil_of_all hall, splitRuns_nil_eq, List.cons_append,
            List.nil_append]
        · have hall2 : cs.all p = false :=
            Bool.not_eq_true _ ▸ Bool.eq_false_iff.mpr hall
          rw [takeWhile_append_not hall2, dropWhile_append_not hall2]
          have hlen : (cs.dropWhile p).length ≤ n := by
            have hsub : (cs.dropWhile p).length ≤ cs.length :=
              (List.dropWhile_sublist p).length_le
            omega
          rw [ih (cs.dropWhile p) hlen ys, List.cons_append]
      · have hc2 : p c = false := Bool.not_eq_true _ ▸ Bool.eq_false_iff.mpr hc
        rw [List.cons_append, splitRuns_cons_neg hc2, splitRuns_cons_neg hc2]
        exact ih cs (by omega) ys

theorem splitRuns_append_sep {p : Char → Bool} {sep : Char}
    (hsep : p sep = false) (xs ys : List Char) :
    splitRuns p (xs ++ sep :: ys) = splitRuns p xs ++ splitRuns p ys :=
  splitRuns_append_sep_aux hsep xs.length xs (le_refl _) ys

theorem splitRuns_joinSp_flat {p : Char → Bool} (hsp : p ' ' = false) :
    ∀ es : List (List Char),
      splitRuns p (joinSp es) = (es.map (splitRuns p)).flatten := by
  intro es
  induction es with
  | nil => rfl
  | cons v es ih =>
    cases es with
    | nil =>
      show splitRuns p v = _
      simp [List.flatten]
    | cons v2 es2 =>
      show splitRuns p (v ++ ' ' :: joinSp (v2 :: es2)) = _
      rw [splitRuns_append_sep hsp, ih]
      simp [List.flatten]

theorem map_id_of_fixed {α : Type} {f : α → α} :
    ∀ {l : List α}, (∀ c ∈ l, f c = c) → l.map f = l := by
  intro l
  induction l with
  | nil => intro _; rfl
  | cons c cs ih =>
    intro h
    rw [List.map_cons, h c (List.mem_cons_self _ _),
      ih (fun d hd => h d (List.mem_cons_of_mem _ hd))]

theorem mem_joinSp {c : Char} :
    ∀ {ws : List (List Char)}, c ∈ joinSp ws →
      (∃ w ∈ ws, c ∈ w) ∨ c = ' ' := by
  intro ws
  induction ws with
  | nil => intro h; simp [joinSp] at h
  | cons w ws ih =>
    intro h
    cases ws with
    | nil => exact Or.inl ⟨w, List.mem_cons_self _ _, h⟩
    | cons w2 ws2 =>
      have h2 : c ∈ w ++ ' ' :: joinSp (w2 :: ws2) := h
      rcases List.mem_append.mp h2 with h3 | h3
      · exact Or.inl ⟨w, List.mem_cons_self _ _, h3⟩
      · rcases List.mem_cons.mp h3 with h4 | h4
        · exact Or.inr h4
        · rcases ih h4 with ⟨v, hv, hcv⟩ | h5
          · exact Or.inl ⟨v, List.mem_cons_of_mem _ hv, hcv⟩
          · exact Or.inr h5

theorem toLower_fix {c : Char} (h : isLowerAlnum c = true ∨ c = ' ') :
    c.toLower = c := by
  have hn : ¬(65 ≤ c.toNat ∧ c.toNat ≤ 90) := by
    rcases h with h | h
    · unfold isLowerAlnum at h
      simp only [Bool.or_eq_true, Bool.and_eq_true, decide_eq_true_eq] at h
      rcases h with ⟨h1, h2⟩ | ⟨h1, h2⟩
      · have g1 : 97 ≤ c.toNat := h1
        omega
      · have g2 : c.toNat ≤ 57 := h2
        omega
    · subst h
      decide
  unfold Char.toLower
  simp [hn]

theorem alnum_not_space {c : Char} (h : isLowerAlnum c = true) :
    (!isPySpace c) = true := by
  rw [Bool.not_eq_true']
  rw [Bool.eq_false_iff]
  intro hsp
  unfold isPySpace at hsp
  simp only [Bool.or_eq_true, decide_eq_true_eq] at hsp
  rcases hsp with ((((h1 | h1) | h1) | h1) | h1) | h1 <;>
    (subst h1; exact absurd h (by decide))

/-! ## Lemmas: text-normalization pipeline and claim C5 -/

namespace IngredientMappingService

theorem abbrev_value_tokens :
    ∀ pr ∈ DEFAULT_ABBREV, ∀ t ∈ splitRuns isLowerAlnum pr.2.data,
      abbrevLookup t = t := by decide

theorem abbrev_value_chars :
    ∀ pr ∈ DEFAULT_ABBREV, ∀ c ∈ pr.2.data,
      isLowerAlnum c = true ∨ c = ' ' := by decide

theorem abbrevLookup_none {u : List Char}
    (h : DEFAULT_ABBREV.find? (fun pr => decide (pr.1.data = u)) = none) :
    abbrevLookup u = u := by
  unfold abbrevLookup
  rw [h]

theorem abbrevLookup_some {u : List Char} {pr : String × String}
    (h : DEFAULT_ABBREV.find? (fun q => decide (q.1.data = u)) = some pr) :
    abbrevLookup u = pr.2.data := by
  unfold abbrevLookup
  rw [h]

theorem abbrevLookup_token_fixed {u : List Char} (hne : u ≠ [])
    (hall : u.all isLowerAlnum = true) :
    ∀ t ∈ splitRuns isLowerAlnum (abbrevLookup u), abbrevLookup t = t := by
  intro t ht
  cases hfind : DEFAULT_ABBREV.find? (fun q => decide (q.1.data = u)) with
  | none =>
    rw [abbrevLookup_none hfind, splitRuns_singleton hne hall] at ht
    have ht2 : t = u := by simpa using ht
    rw [ht2]
    exact abbrevLookup_none hfind
  | some pr =>
    rw [abbrevLookup_some hfind] at ht
    exact abbrev_value_tokens pr (List.mem_of_find?_eq_some hfind) t ht

theorem abbrevLookup_chars {u : List Char}
    (hall : u.all isLowerAlnum = true) :
    ∀ c ∈ abbrevLookup u, isLowerAlnum c = true ∨ c = ' ' := by
  intro c hc
  cases hfind : DEFAULT_ABBREV.find? (fun q => decide (q.1.data = u)) with
  | none =>
    rw [abbrevLookup_none hfind] at hc
    exact Or.inl (List.all_eq_true.mp hall c hc)
  | some pr =>
    rw [abbrevLookup_some hfind] at hc
    exact abbrev_value_chars pr (List.mem_of_find?_eq_some hfind) c hc

theorem norm_fix_of_words {ws : List (List Char)}
    (h : ∀ w ∈ ws, w ≠ [] ∧ w.all isLowerAlnum = true) :
    _normalize (joinSp ws) = joinSp ws := by
  unfold _normalize
  rw [map_id_of_fixed (fun c hc => ?_), splitRuns_joinSp (by decide) ws h]
  rcases mem_joinSp hc with ⟨w, hw, hcw⟩ | hsp
  · exact toLower_fix (Or.inl (List.all_eq_true.mp (h w hw).2 c hcw))
  · exact toLower_fix (Or.inr hsp)

theorem pySplit_joinSp {ws : List (List Char)}
    (h : ∀ w ∈ ws, w ≠ [] ∧ w.all isLowerAlnum = true) :
    pySplit (joinSp ws) = ws := by
  unfold pySplit
  refine splitRuns_joinSp (by decide) ws (fun w hw => ⟨(h w hw).1, ?_⟩)
  rw [List.all_eq_true]
  intro c hc
  exact alnum_not_space (List.all_eq_true.mp (h w hw).2 c hc)

theorem stage_norm (x : List Char) :
    ∃ us, (∀ w ∈ us, w ≠ [] ∧ w.all isLowerAlnum = true) ∧
      _normalize x = joinSp us :=
  ⟨splitRuns isLowerAlnum (x.map Char.toLower),
    splitRuns_sound isLowerAlnum (x.map Char.toLower), rfl⟩

theorem stage_expand {us : List (List Char)}
    (h : ∀ w ∈ us, w ≠ [] ∧ w.all isLowerAlnum = true) :
    ∃ ts, (∀ t ∈ ts, t ≠ [] ∧ t.all isLowerAlnum = true ∧ abbrevLookup t = t) ∧
      _normalize (_expand_abbrev (joinSp us)) = joinSp ts := by
  refine ⟨((us.map abbrevLookup).map (splitRuns isLowerAlnum)).flatten, ?_, ?_⟩
  · intro t ht
    rcases List.mem_flatten.mp ht with ⟨m, hm, htm⟩
    obtain ⟨v, hv, rfl⟩ := List.mem_map.mp hm
    obtain ⟨u, hu, rfl⟩ := List.mem_map.mp hv
    have hsound := splitRuns_sound isLowerAlnum (abbrevLookup u)
    exact ⟨(hsound t htm).1, (hsound t htm).2,
      abbrevLookup_token_fixed (h u hu).1 (h u hu).2 t htm⟩
  · unfold _expand_abbrev
    rw [pySplit_joinSp h]
    unfold _normalize
    rw [map_id_of_fixed (fun c hc => ?_), splitRuns_joinSp_flat (by decide)]
    rcases mem_joinSp hc with ⟨v, hv, hcv⟩ | hsp
    · obtain ⟨u, hu, rfl⟩ := List.mem_map.mp hv
      exact toLower_fix (abbrevLookup_chars (h u hu).2 c hcv)
    · exact toLower_fix (Or.inr hsp)

theorem stage_stop {ts : List (List Char)}
    (h : ∀ t ∈ ts, t ≠ [] ∧ t.all isLowerAlnum = true ∧ abbrevLookup t = t) :
    ∃ ws, (∀ w ∈ ws, GoodWord w) ∧
      _normalize (_remove_stopwords (joinSp ts)) = joinSp ws := by
  refine ⟨ts.filter (fun w => !isStop w), ?_, ?_⟩
  · intro w hw
    have hmem := List.mem_filter.mp hw
    have hts := h w hmem.1
    refine ⟨hts.1, hts.2.1, hts.2.2, ?_⟩
    have := hmem.2
    simpa using this
  · unfold _remove_stopwords
    rw [pySplit_joinSp (fun t ht => ⟨(h t ht).1, (h t ht).2.1⟩)]
    refine norm_fix_of_words (fun w hw => ?_)
    have hmem := List.mem_filter.mp hw
    exact ⟨(h w hmem.1).1, (h w hmem.1).2.1⟩

theorem pipeline_good (x : List Char) : GoodOut (_normalize_pipeline x) := by
  unfold _normalize_pipeline
  dsimp only
  obtain ⟨us, hus, h1⟩ := stage_norm x
  rw [h1]
  obtain ⟨ts, hts, h2⟩ := stage_expand hus
  rw [h2]
  obtain ⟨ws, hws, h3⟩ := stage_stop hts
  rw [h3]
  exact ⟨ws, hws, rfl⟩

theorem pipeline_fixed {y : List Char} (h : GoodOut y) :
    _normalize_pipeline y = y := by
  obtain ⟨ws, hgood, rfl⟩ := h
  have hPw : ∀ w ∈ ws, w ≠ [] ∧ w.all isLowerAlnum = true :=
    fun w hw => ⟨(hgood w hw).1, (hgood w hw).2.1⟩
  have hnorm := norm_fix_of_words hPw
  have hsplit := pySplit_joinSp hPw
  unfold _normalize_pipeline
  dsimp only
  rw [hnorm]
  have hexp : _expand_abbrev (joinSp ws) = joinSp ws := by
    unfold _expand_abbrev
    rw [hsplit, map_id_of_fixed (fun w hw => (hgood w hw).2.2.1)]
  rw [hexp, hnorm]
  have hstop : _remove_stopwords (joinSp ws) = joinSp ws := by
    unfold _remove_stopwords
    rw [hsplit, List.filter_eq_self.mpr (fun w hw => by
      simp [(hgood w hw).2.2.2])]
  rw [hstop, hnorm]

end IngredientMappingService

/-- C5: the Identity Resolver text-normalization pipeline (lowercase and
strip non-alphanumerics, expand abbreviations token-by-token, re-normalize,
drop stopwords, re-normalize) is idempotent: applying it to its own output
returns that output unchanged, for every input string. -/
theorem C5_pipeline_idempotent (x : String) :
    IngredientMappingService.normalizePipelineS
      (IngredientMappingService.normalizePipelineS x) =
      IngredientMappingService.normalizePipelineS x := by
  unfold IngredientMappingService.normalizePipelineS
  have h : IngredientMappingService._normalize_pipeline
      (IngredientMappingService._normalize_pipeline x.data) =
      IngredientMappingService._normalize_pipeline x.data :=
    IngredientMappingService.pipeline_fixed
      (IngredientMappingService.pipeline_good x.data)
  rw [show (String.mk (IngredientMappingService._normalize_pipeline x.data)).data =
    IngredientMappingService._normalize_pipeline x.data from rfl, h]

end GrocerySense
